import Mathlib

/-!
Verification development for the struct-adaptation engine in `adapter.go`
(package `adapters`).  The engine is embedded shallowly: Go structs become
lists of field values parallel to a list of field descriptors, the
JSON-encoded `AdditionalData` overflow container becomes an explicit
constructor of the value domain, registries become lookup functions, and
the reflect-driven adaptation loops become structural recursions threading
an explicit state (destination value, source value, scratch sets).
-/

namespace Adapters

/-- Field value types supported by the embedding.  `tInt`, `tStr`, `tBool`
mirror the scalar Go field types used by the engine; `tJson` is the type of
an `AdditionalData` container slot (`null.JSON` or `types.JSON`). -/
inductive Ty where
  | tInt
  | tStr
  | tBool
  | tJson
deriving DecidableEq

/-- Runtime values.  The three container constructors embed the observable
states of an `AdditionalData` slot: `vAbsent` is the explicit absent
representation (invalid `null.JSON` / nil `types.JSON`), `vObj` is stored
bytes that decode as a JSON object, `vMalformed` is stored bytes that fail
to decode as a JSON object. -/
inductive Value where
  | vInt (n : Int)
  | vStr (s : String)
  | vBool (b : Bool)
  | vAbsent
  | vObj (kvs : List (String × Value))
  | vMalformed

/-- Dynamic type of a value, as `reflect.TypeOf` would report it. -/
def Value.ty : Value → Ty
  | .vInt _ => .tInt
  | .vStr _ => .tStr
  | .vBool _ => .tBool
  | .vAbsent => .tJson
  | .vObj _ => .tJson
  | .vMalformed => .tJson

/-- Zero value of a type, as `reflect.Zero` produces. -/
def zeroOf : Ty → Value
  | .tInt => .vInt 0
  | .tStr => .vStr ""
  | .tBool => .vBool false
  | .tJson => .vAbsent

/-- Embeds `reflect.Value.IsZero`. -/
def Value.isZero : Value → Bool
  | .vInt n => n == 0
  | .vStr s => s == ""
  | .vBool b => b == false
  | .vAbsent => true
  | .vObj _ => false
  | .vMalformed => false

/-- Embeds `reflect.Type.AssignableTo` on the value types of the model:
identical types are assignable. -/
def Ty.assignableTo (a b : Ty) : Bool := a == b

/-- Embeds `reflect.Type.ConvertibleTo` restricted to the scalar types the
model carries; no widening pairs are included, so it coincides with
assignability. -/
def Ty.convertibleTo (a b : Ty) : Bool := a == b

/-- Embeds `reflect.Value.Convert` for the convertible pairs of the model. -/
def Value.convert (v : Value) (_t : Ty) : Value := v

/-- One entry of `structMetadata.fields` (`fieldInfo` in the source):
name, JSON-tag alias (empty string when absent, as in Go), type, the
settability flag, the `AdditionalData` marker and the ignore marker. -/
structure FieldInfo where
  name : String
  jsonName : String
  ty : Ty
  canSet : Bool
  isAdditionalData : Bool
  ignore : Bool
deriving DecidableEq

/-- A struct type together with its flattened field metadata, i.e. the
`structMetadata` the cache would hold for it.  The lookup maps of the Go
metadata are recomputed from the list on demand below. -/
structure SType where
  fields : List FieldInfo
deriving DecidableEq

/-- A struct instance: the field values, parallel to `SType.fields`. -/
structure SVal where
  vals : List Value

/-- Read a field by flattened index (`safeFieldByIndex`; the model carries
no nil embedded pointers, so the access always succeeds). -/
def SVal.getF (v : SVal) (i : Nat) : Value := v.vals.getD i Value.vAbsent

/-- Write a field by flattened index (`reflect.Value.Set` through
`FieldByIndex`). -/
def SVal.setF (v : SVal) (i : Nat) (x : Value) : SVal := ⟨v.vals.set i x⟩

/-- Checks that an instance matches its type: same field count and each
value has the declared field type. -/
def SVal.wellTyped (t : SType) (v : SVal) : Bool :=
  v.vals.length == t.fields.length &&
    (List.zip t.fields v.vals).all (fun p => p.2.ty == p.1.ty)

/-- The all-zero instance of a type (`reflect.New(...).Elem()`). -/
def zeroVal (t : SType) : SVal := ⟨t.fields.map (fun f => zeroOf f.ty)⟩

/-- Index-annotated field list starting at `n`; used to drive the loops
that Go runs over `meta.fields` with positional indices. -/
def enumF (n : Nat) : List FieldInfo → List (Nat × FieldInfo)
  | [] => []
  | f :: l => (n, f) :: enumF (n + 1) l

/-- Index-annotated field list of a type, from position zero. -/
def enumFields (t : SType) : List (Nat × FieldInfo) := enumF 0 t.fields

/-- Last entry of an index-annotated list satisfying a predicate.  The Go
metadata maps are built by a forward loop whose later insertions overwrite
earlier ones, so a map lookup returns the last field with the key. -/
def lastFind (p : FieldInfo → Bool) : List (Nat × FieldInfo) → Option (Nat × FieldInfo)
  | [] => none
  | x :: l =>
    match lastFind p l with
    | some r => some r
    | none => if p x.2 then some x else none

/-- Lookup in `meta.fieldsByName`. -/
def fieldsByName (t : SType) (n : String) : Option (Nat × FieldInfo) :=
  lastFind (fun f => f.name == n) (enumFields t)

/-- Lookup in `meta.fieldsByJSONName`; fields with an empty alias are never
inserted into that map. -/
def fieldsByJSONName (t : SType) (n : String) : Option (Nat × FieldInfo) :=
  if n == "" then none
  else lastFind (fun f => f.jsonName == n) (enumFields t)

/-- Lookup in `meta.fieldsByLowerName` (keys are lowercased names; the
argument is the already-lowercased key). -/
def fieldsByLowerName (t : SType) (n : String) : Option (Nat × FieldInfo) :=
  lastFind (fun f => f.name.toLower == n) (enumFields t)

/-- Lookup in `meta.fieldsByLowerJSONName`. -/
def fieldsByLowerJSONName (t : SType) (n : String) : Option (Nat × FieldInfo) :=
  if n == "" then none
  else lastFind (fun f => f.jsonName.toLower == n && f.jsonName != "") (enumFields t)

/-- First field marked `isAdditionalData`, i.e. `meta.additionalDataField`
(`getOrBuildMetadata` keeps the first such field). -/
def adFind (t : SType) : Option (Nat × FieldInfo) :=
  (enumFields t).find? (fun p => p.2.isAdditionalData)

/-- Converter function: `func(src interface{}) (interface{}, error)`.
`Except.error` is a returned error; `Except.ok none` is a nil result. -/
def Conv : Type := Value → Except String (Option Value)

/-- Validator function: `func(value interface{}) error`; `some e` is a
returned error. -/
def Validator : Type := Value → Option String

/-- Converter registry snapshot (`converterRegistry`): global,
destination-scoped and pair-scoped maps, each read with Go nil-map
semantics. -/
structure ConvRegistry where
  global : String → Option Conv
  byDst : SType → String → Option Conv
  byPair : SType → SType → String → Option Conv

/-- Validator registry snapshot (`validatorRegistry`). -/
structure ValRegistry where
  global : String → Option Validator
  byDst : SType → String → Option Validator
  byPair : SType → SType → String → Option Validator

/-- The empty converter registry, as `NewWithOptions` installs. -/
def ConvRegistry.empty : ConvRegistry :=
  ⟨fun _ => none, fun _ _ => none, fun _ _ _ => none⟩

/-- The empty validator registry. -/
def ValRegistry.empty : ValRegistry :=
  ⟨fun _ => none, fun _ _ => none, fun _ _ _ => none⟩

/-- Overflow overwrite policy. -/
inductive OverwritePolicy where
  | PreferFields
  | PreferAdditionalData
deriving DecidableEq

/-- Adapter options with their `NewWithOptions` defaults. -/
structure Options where
  IncludeZeroValues : Bool := false
  CaseInsensitiveAdditionalData : Bool := false
  OverwritePolicy : OverwritePolicy := .PreferFields
  DisableMarshalAdditionalData : Bool := false
  DisableUnmarshalAdditionalData : Bool := false

/-- An adapter at a single call: the registry snapshots the call loads and
the options fixed at construction. -/
structure Adapter where
  converters : ConvRegistry
  validators : ValRegistry
  options : Options

/-- An adapter with empty registries and default options, as `New()`
builds. -/
def Adapter.new : Adapter :=
  ⟨ConvRegistry.empty, ValRegistry.empty, {}⟩

/-- The `reflect.TypeOf(struct{}{})` placeholder the overflow-unmarshal
path passes to `runValidators` as the source root type. -/
def emptyStructTy : SType := ⟨[]⟩

/-- Embeds `runValidators`: pair-scoped validator first, then
destination-scoped, then global; the first one found is applied to the
just-set destination value. -/
def runValidators (a : Adapter) (dstVal : Value) (fieldName : String)
    (srcRoot dstRoot : SType) : Option String :=
  match a.validators.byPair srcRoot dstRoot fieldName with
  | some fn => fn dstVal
  | none =>
    match a.validators.byDst dstRoot fieldName with
    | some fn => fn dstVal
    | none =>
      match a.validators.global fieldName with
      | some fn => fn dstVal
      | none => none

/-- Embeds `applyConverter`: a converter error is returned as-is, a nil
result produces the zero value of the destination type, a non-nil result
must be assignable to the destination type or a type-mismatch error is
returned. -/
def applyConverter (dstTy : Ty) (fn : Conv) (srcV : Value) (fieldName : String) :
    Except String Value :=
  match fn srcV with
  | .error e => .error e
  | .ok none => .ok (zeroOf dstTy)
  | .ok (some cv) =>
    if cv.ty.assignableTo dstTy then .ok cv
    else .error ("converter returned wrong type for field " ++ fieldName)

/-- Shared converter-then-validator block of the three scope branches of
`adaptField`. -/
def convThenValidate (a : Adapter) (dstTy : Ty) (fn : Conv) (srcV : Value)
    (fieldName : String) (srcRoot dstRoot : SType) : Except String Value :=
  match applyConverter dstTy fn srcV fieldName with
  | .error e => .error e
  | .ok v =>
    match runValidators a v fieldName srcRoot dstRoot with
    | some e => .error e
    | none => .ok v

/-- Embeds `adaptField`.  `dstCur` is the current destination field value
(left in place on the silent-skip path).  The three converter-scope
branches are written out as in the source; the direct-copy logic runs only
when none of them fires. -/
def adaptField (a : Adapter) (dstTy : Ty) (dstCur srcV : Value) (canSet : Bool)
    (fieldName : String) (srcRoot dstRoot : SType) : Except String Value :=
  if !canSet then .error ("cannot set field " ++ fieldName)
  else
    match a.converters.byPair srcRoot dstRoot fieldName with
    | some fn => convThenValidate a dstTy fn srcV fieldName srcRoot dstRoot
    | none =>
      match a.converters.byDst dstRoot fieldName with
      | some fn => convThenValidate a dstTy fn srcV fieldName srcRoot dstRoot
      | none =>
        match a.converters.global fieldName with
        | some fn => convThenValidate a dstTy fn srcV fieldName srcRoot dstRoot
        | none =>
          if srcV.ty == dstTy || srcV.ty.assignableTo dstTy then
            match runValidators a srcV fieldName srcRoot dstRoot with
            | some e => .error e
            | none => .ok srcV
          else if srcV.ty.convertibleTo dstTy then
            match runValidators a (srcV.convert dstTy) fieldName srcRoot dstRoot with
            | some e => .error e
            | none => .ok (srcV.convert dstTy)
          else .ok dstCur

/-- Effective converter by the fixed precedence order: pair scope over
destination scope over global scope. -/
def resolveConverter (r : ConvRegistry) (srcRoot dstRoot : SType) (n : String) :
    Option Conv :=
  match r.byPair srcRoot dstRoot n with
  | some fn => some fn
  | none =>
    match r.byDst dstRoot n with
    | some fn => some fn
    | none => r.global n

/-- Effective validator by the same precedence order. -/
def resolveValidator (r : ValRegistry) (srcRoot dstRoot : SType) (n : String) :
    Option Validator :=
  match r.byPair srcRoot dstRoot n with
  | some fn => some fn
  | none =>
    match r.byDst dstRoot n with
    | some fn => some fn
    | none => r.global n

/-- Direct-copy tail of `adaptField`, for stating its characterization. -/
def directCopy (a : Adapter) (dstTy : Ty) (dstCur srcV : Value)
    (fieldName : String) (srcRoot dstRoot : SType) : Except String Value :=
  if srcV.ty == dstTy || srcV.ty.assignableTo dstTy then
    match runValidators a srcV fieldName srcRoot dstRoot with
    | some e => .error e
    | none => .ok srcV
  else if srcV.ty.convertibleTo dstTy then
    match runValidators a (srcV.convert dstTy) fieldName srcRoot dstRoot with
    | some e => .error e
    | none => .ok (srcV.convert dstTy)
  else .ok dstCur

/-- The two struct instances a call works on.  Every write the Go code
performs goes through the destination `reflect.Value`; the embedding makes
that explicit by updating only the `dst` component. -/
structure World where
  dst : SVal
  src : SVal

/-- Write a destination field inside a world. -/
def World.setDst (w : World) (i : Nat) (x : Value) : World :=
  ⟨w.dst.setF i x, w.src⟩

/-- State threaded through `adaptStruct`: the world plus the two scratch
sets (`processed` source names and `dstSet` destination names). -/
structure AdaptState where
  w : World
  processed : List String
  dstSet : List String

/-- Insert a name into a scratch set (`m[k] = true`). -/
def insertS (k : String) (l : List String) : List String :=
  if l.contains k then l else k :: l

/-- Source-member lookup of the direct-resolution loop: exact name first,
then the JSON alias when the destination member has one.  Case-insensitive
matching is not consulted here. -/
def findSrcIdx (st : SType) (df : FieldInfo) : Option (Nat × FieldInfo) :=
  match fieldsByName st df.name with
  | some r => some r
  | none =>
    if df.jsonName != "" then fieldsByJSONName st df.jsonName
    else none

/-- The per-destination-member loop of `adaptStruct`: skip unsettable,
overflow-slot and ignored members; locate the source member; record an
overflow-slot or ignored source member as consumed and skip it; otherwise
adapt the field, abort on error with the field name wrapped in, and record
both members as consumed. -/
def adaptFieldsLoop (a : Adapter) (dt st : SType) (hasAD : Bool) :
    List (Nat × FieldInfo) → AdaptState → AdaptState × Option String
  | [], s => (s, none)
  | (i, df) :: rest, s =>
    if !df.canSet || df.isAdditionalData || df.ignore then
      adaptFieldsLoop a dt st hasAD rest s
    else
      match findSrcIdx st df with
      | none => adaptFieldsLoop a dt st hasAD rest s
      | some (j, sf) =>
        if sf.isAdditionalData || sf.ignore then
          adaptFieldsLoop a dt st hasAD rest
            { s with processed := if hasAD then insertS sf.name s.processed else s.processed }
        else
          match adaptField a df.ty (s.w.dst.getF i) (s.w.src.getF j) df.canSet df.name st dt with
          | .error e => (s, some ("adapting field " ++ df.name ++ ": " ++ e))
          | .ok newV =>
            adaptFieldsLoop a dt st hasAD rest
              { w := s.w.setDst i newV
                processed := if hasAD then insertS sf.name s.processed else s.processed
                dstSet := if hasAD then insertS df.name s.dstSet else s.dstSet }

/-- Overflow-key lookup of `unmarshalAdditionalData`: with case-insensitive
matching off, exact name then alias; with it on, the lowercased-key maps
instead. -/
def adLookup (dt : SType) (ci : Bool) (key : String) : Option (Nat × FieldInfo) :=
  if !ci then
    match fieldsByName dt key with
    | some r => some r
    | none => fieldsByJSONName dt key
  else
    match fieldsByLowerName dt key.toLower with
    | some r => some r
    | none => fieldsByLowerJSONName dt key.toLower

/-- Generic decode of a raw overflow value (`json.Unmarshal` into
`interface{}`): the native JSON shape is preserved; raw values inside a
well-formed container always decode. -/
def genericDecode (raw : Value) : Value := raw

/-- Typed decode of a raw overflow value into a destination member type
(`json.Unmarshal` into a pointer to the member type): succeeds exactly when
the JSON shape matches the member type. -/
def decodeAs (t : Ty) (raw : Value) : Option Value :=
  if raw.ty == t then some raw else none

/-- The per-key loop of `unmarshalAdditionalData`.  A key that fails to
resolve, resolves to an unsettable or ignored member, loses to the
overwrite policy, fails its registered global converter, or fails to
decode, is skipped and the loop continues; a validator error aborts. -/
def unmarshalLoop (a : Adapter) (dt : SType) :
    List (String × Value) → World → List String → (World × List String) × Option String
  | [], w, dstSet => ((w, dstSet), none)
  | (k, raw) :: rest, w, dstSet =>
    match adLookup dt a.options.CaseInsensitiveAdditionalData k with
    | none => unmarshalLoop a dt rest w dstSet
    | some (i, fi) =>
      if !fi.canSet || fi.ignore then unmarshalLoop a dt rest w dstSet
      else if a.options.OverwritePolicy == .PreferFields && dstSet.contains fi.name then
        unmarshalLoop a dt rest w dstSet
      else
        match a.converters.global fi.name with
        | some fn =>
          -- converter path: no fallback to the typed decode, whatever the outcome
          match fn (genericDecode raw) with
          | .ok (some cv) =>
            if cv.ty.assignableTo fi.ty then
              match runValidators a cv fi.name emptyStructTy dt with
              | some e => ((w.setDst i cv, dstSet), some e)
              | none => unmarshalLoop a dt rest (w.setDst i cv) (insertS fi.name dstSet)
            else unmarshalLoop a dt rest w dstSet
          | _ => unmarshalLoop a dt rest w dstSet
        | none =>
          match decodeAs fi.ty raw with
          | none => unmarshalLoop a dt rest w dstSet
          | some v =>
            match runValidators a v fi.name emptyStructTy dt with
            | some e => ((w.setDst i v, dstSet), some e)
            | none => unmarshalLoop a dt rest (w.setDst i v) (insertS fi.name dstSet)

/-- Embeds `unmarshalAdditionalData`: an absent container (or a slot whose
value is not a container at all) is a no-op, container bytes that fail to
decode as a JSON object abort with an error, and a decoded object is walked
key by key. -/
def unmarshalAdditionalData (a : Adapter) (dt : SType) (srcAD : Value)
    (w : World) (dstSet : List String) : (World × List String) × Option String :=
  match srcAD with
  | .vAbsent => ((w, dstSet), none)
  | .vMalformed => ((w, dstSet), some "invalid character in AdditionalData JSON")
  | .vObj kvs => unmarshalLoop a dt kvs w dstSet
  | _ => ((w, dstSet), none)

/-- The collection loop of `marshalRemainingFields`, rendered as an
association list with the map semantics of the Go code (a later field with
the same name overwrites an earlier one, so an earlier field is kept only
when no later field claims its name). -/
def collectRemaining (a : Adapter) (srcV : SVal) (processed : List String) :
    List (Nat × FieldInfo) → List (String × Value)
  | [] => []
  | (i, sf) :: rest =>
    if sf.isAdditionalData || sf.ignore then collectRemaining a srcV processed rest
    else if processed.contains sf.name then collectRemaining a srcV processed rest
    else if !a.options.IncludeZeroValues && (srcV.getF i).isZero then
      collectRemaining a srcV processed rest
    else if (collectRemaining a srcV processed rest).any (fun p => p.1 == sf.name) then
      collectRemaining a srcV processed rest
    else (sf.name, srcV.getF i) :: collectRemaining a srcV processed rest

/-- Embeds `marshalRemainingFields`: unconsumed, non-ignored, non-overflow
source members are collected (zero values excluded unless the option is
set); an empty collection yields the explicit absent container value,
otherwise the encoded object. -/
def marshalRemainingFields (a : Adapter) (st : SType) (srcV : SVal)
    (processed : List String) : Value :=
  if (collectRemaining a srcV processed (enumFields st)).isEmpty then Value.vAbsent
  else Value.vObj (collectRemaining a srcV processed (enumFields st))

/-- The overflow-unmarshal step of `adaptStruct` (lines guarded by
`srcMeta.additionalDataField != nil && !DisableUnmarshalAdditionalData`):
decode the source's overflow slot into still-unset destination members,
wrap an error with its stage name, and mark the slot itself consumed on
success. -/
def unmarshalStep (a : Adapter) (dt st : SType) (hasAD : Bool) (s1 : AdaptState) :
    AdaptState × Option String :=
  match adFind st with
  | some (j, _) =>
    if a.options.DisableUnmarshalAdditionalData then (s1, none)
    else
      match unmarshalAdditionalData a dt (s1.w.src.getF j) s1.w s1.dstSet with
      | ((w2, set2), some e) =>
        (⟨w2, s1.processed, set2⟩, some ("unmarshaling AdditionalData: " ++ e))
      | ((w2, set2), none) =>
        (⟨w2, if hasAD then insertS "AdditionalData" s1.processed else s1.processed, set2⟩,
          none)
  | none => (s1, none)

/-- The overflow-marshal step of `adaptStruct` (guarded by
`dstMeta.additionalDataField != nil && !DisableMarshalAdditionalData`):
box the unconsumed source members into the destination's overflow slot. -/
def marshalStep (a : Adapter) (dt st : SType) (s2 : AdaptState) : World :=
  match adFind dt with
  | some (iAD, _) =>
    if a.options.DisableMarshalAdditionalData then s2.w
    else s2.w.setDst iAD (marshalRemainingFields a st s2.w.src s2.processed)
  | none => s2.w

/-- Embeds `adaptStruct` as a transformer of the two-struct world: the
direct-resolution loop, then overflow unmarshal (source container into
destination members), then overflow marshal (leftover source members into
the destination container).  An error leaves the partially-written world
observable, as the Go code leaves the partially-written destination. -/
def adaptStructW (a : Adapter) (dt st : SType) (w0 : World) : World × Option String :=
  let hasAD := (adFind st).isSome || (adFind dt).isSome
  match adaptFieldsLoop a dt st hasAD (enumFields dt) ⟨w0, [], []⟩ with
  | (s1, some e) => (s1.w, some e)
  | (s1, none) =>
    match unmarshalStep a dt st hasAD s1 with
    | (s2, some e) => (s2.w, some e)
    | (s2, none) => (marshalStep a dt st s2, none)

/-- Result-level view of `adaptStruct`: the adapted destination value, or
the first error. -/
def adaptStruct (a : Adapter) (dt st : SType) (dstV srcV : SVal) : Except String SVal :=
  match adaptStructW a dt st ⟨dstV, srcV⟩ with
  | (w, none) => .ok w.dst
  | (_, some e) => .error e

/-- Shapes an argument of `Into` can take, as its reflection checks
distinguish them: a nil interface, a non-pointer, a typed nil pointer
(whose `Elem` is invalid), a non-nil pointer to a non-struct, and a non-nil
pointer to a struct carrying the struct type and value. -/
inductive GoArg where
  | goNil
  | goNonPtr
  | goPtrNil
  | goPtrNonStruct
  | goPtrStruct (t : SType) (v : SVal)

/-- Whether an argument's `reflect.Kind` is `Ptr`. -/
def GoArg.isPtr : GoArg → Bool
  | .goNil => false
  | .goNonPtr => false
  | _ => true

/-- Embeds `Into`: nil arguments, non-pointers, and pointers whose element
is not a struct are rejected before any adaptation; two non-nil struct
pointers are handed to `adaptStruct`. -/
def Into (a : Adapter) (dst src : GoArg) : Except String SVal :=
  match src, dst with
  | .goNil, _ => .error "src and dst must not be nil"
  | _, .goNil => .error "src and dst must not be nil"
  | s, d =>
    if !s.isPtr || !d.isPtr then .error "src and dst must be pointers"
    else
      match d, s with
      | .goPtrStruct dt dv, .goPtrStruct st sv => adaptStruct a dt st dv sv
      | _, _ => .error "src and dst must point to structs"

/-- An adapter with empty registries and the given options
(`NewWithOptions`). -/
def adapterWithOptions (o : Options) : Adapter :=
  ⟨ConvRegistry.empty, ValRegistry.empty, o⟩

/-- The adapter with a chosen overwrite policy and everything else at its
default. -/
def adapterWithPolicy (p : OverwritePolicy) : Adapter :=
  adapterWithOptions { OverwritePolicy := p }

/-- Replace only the case-insensitivity option of an adapter. -/
def setCI (a : Adapter) (b : Bool) : Adapter :=
  { a with options := { a.options with CaseInsensitiveAdditionalData := b } }

/-- Replace only the destination- and pair-scoped converter maps of an
adapter, keeping the global map. -/
def setScopedConverters (a : Adapter)
    (byDst : SType → String → Option Conv)
    (byPair : SType → SType → String → Option Conv) : Adapter :=
  { a with converters := ⟨a.converters.global, byDst, byPair⟩ }

/-- A plain string field descriptor with the given name. -/
def strField (n : String) : FieldInfo := ⟨n, "", .tStr, true, false, false⟩

/-- A plain int field descriptor with the given name. -/
def intField (n : String) : FieldInfo := ⟨n, "", .tInt, true, false, false⟩

/-- An `AdditionalData` overflow-slot descriptor. -/
def adField : FieldInfo := ⟨"AdditionalData", "", .tJson, true, true, false⟩

/-- Source type of the overwrite-policy scenario: a direct `Name` member
plus an overflow slot. -/
def owSrcT : SType := ⟨[strField "Name", adField]⟩

/-- Destination type of the overwrite-policy scenario: only a direct
`Name` member. -/
def owDstT : SType := ⟨[strField "Name"]⟩

/-- Destination type of the case-insensitivity scenario. -/
def ciDstT : SType := ⟨[strField "Name"]⟩

/-- Source type of the case-insensitivity scenario: the same member name in
a different case, with no alias. -/
def ciSrcT : SType := ⟨[strField "NAME"]⟩

/-- Destination type of the overflow-converter-scope scenario. -/
def scDstT : SType := ⟨[intField "Age"]⟩

/-- Source type of the overflow-converter-scope scenario: only an overflow
slot. -/
def scSrcT : SType := ⟨[adField]⟩

/-- A converter returning the constant 99, used to observe which scope the
overflow-unmarshal path consults. -/
def const99 : Conv := fun _ => .ok (some (.vInt 99))

/-- An adapter whose only registration is a pair-scoped converter for
`Age` on the overflow-scope scenario's type pair. -/
def pairOnlyAdapter : Adapter :=
  { Adapter.new with
    converters :=
      { ConvRegistry.empty with
        byPair := fun s d n =>
          if s == scSrcT && d == scDstT && n == "Age" then some const99 else none } }

/-- An adapter whose only registration is a global converter for `Age`. -/
def globalAgeAdapter : Adapter :=
  { Adapter.new with
    converters :=
      { ConvRegistry.empty with
        global := fun n => if n == "Age" then some const99 else none } }

/-- A validator rejecting every value, registered globally for `Age`. -/
def rejectAge : Adapter :=
  { Adapter.new with
    validators :=
      { ValRegistry.empty with
        global := fun n => if n == "Age" then some (fun _ => some "Age rejected") else none } }

/-- A converter that always fails. -/
def failConv : Conv := fun _ => .error "boom"

/-- A converter that always returns an int (the wrong type for a string
destination member). -/
def badTypeConv : Conv := fun _ => .ok (some (.vInt 1))

/-- A converter that always returns nil. -/
def nilConv : Conv := fun _ => .ok none

/-- An adapter with a single global converter for `Name`. -/
def withGlobalNameConv (fn : Conv) : Adapter :=
  { Adapter.new with
    converters :=
      { ConvRegistry.empty with
        global := fun n => if n == "Name" then some fn else none } }

/-- Types and values for the zero-exclusion scenario: an all-zero source
with an overflow-capable destination. -/
def zeroSrcT : SType := ⟨[intField "Age", strField "Name"]⟩

/-- The all-zero instance of `zeroSrcT`. -/
def zeroSrcV : SVal := ⟨[.vInt 0, .vStr ""]⟩

/-- Placeholder descriptor used as the default of list lookups that are
always in range. -/
def dfltField : FieldInfo := ⟨"", "", .tInt, true, false, false⟩

/-- Field descriptor properties the round-trip claim assumes of the fully
representable source type: settable, not the overflow slot, not ignored,
no alias, and a scalar type. -/
def plainSrcField (f : FieldInfo) : Prop :=
  f.canSet = true ∧ f.isAdditionalData = false ∧ f.ignore = false ∧
    f.jsonName = "" ∧ f.ty ≠ Ty.tJson

/-- Field descriptor properties the round-trip claim assumes of the
destination type's members: settable, not ignored, no alias. -/
def plainDstField (g : FieldInfo) : Prop :=
  g.canSet = true ∧ g.ignore = false ∧ g.jsonName = ""

/-- Full representability of composite type `ta` in composite type `tb`:
every member of `ta` either has a same-named, same-typed, non-overflow
counterpart in `tb` (a direct field) or shares its name with no member of
`tb` at all (so it travels through `tb`'s overflow slot). -/
def representable (ta tb : SType) : Prop :=
  ∀ f ∈ ta.fields,
    (∃ g ∈ tb.fields, g.name = f.name ∧ g.ty = f.ty ∧ g.isAdditionalData = false)
      ∨ (∀ g ∈ tb.fields, g.name ≠ f.name)

/-! ### Helper lemmas -/

theorem adaptField_eq_resolve (a : Adapter) (dstTy : Ty) (dstCur srcV : Value)
    (n : String) (st dt : SType) :
    adaptField a dstTy dstCur srcV true n st dt =
      match resolveConverter a.converters st dt n with
      | some fn => convThenValidate a dstTy fn srcV n st dt
      | none => directCopy a dstTy dstCur srcV n st dt := by
  unfold adaptField resolveConverter directCopy
  cases h1 : a.converters.byPair st dt n <;>
    cases h2 : a.converters.byDst dt n <;>
      cases h3 : a.converters.global n <;> simp

theorem runValidators_eq_resolve (a : Adapter) (v : Value) (n : String) (st dt : SType) :
    runValidators a v n st dt =
      match resolveValidator a.validators st dt n with
      | some fn => fn v
      | none => none := by
  unfold runValidators resolveValidator
  cases h1 : a.validators.byPair st dt n <;>
    cases h2 : a.validators.byDst dt n <;>
      cases h3 : a.validators.global n <;> simp

theorem adaptFieldsLoop_src (a : Adapter) (dt st : SType) (hasAD : Bool) :
    ∀ (L : List (Nat × FieldInfo)) (s : AdaptState),
      ((adaptFieldsLoop a dt st hasAD L s).1).w.src = s.w.src := by
  intro L
  induction L with
  | nil => intro s; rfl
  | cons x rest ih =>
    intro s
    obtain ⟨i, df⟩ := x
    show ((adaptFieldsLoop a dt st hasAD ((i, df) :: rest) s).1).w.src = s.w.src
    rw [adaptFieldsLoop]
    split
    · exact ih s
    · split
      · exact ih s
      · rename_i j sf
        split
        · exact ih _
        · split
          · rfl
          · exact ih _

theorem unmarshalLoop_src (a : Adapter) (dt : SType) :
    ∀ (kvs : List (String × Value)) (w : World) (dstSet : List String),
      ((unmarshalLoop a dt kvs w dstSet).1).1.src = w.src := by
  intro kvs
  induction kvs with
  | nil => intro w dstSet; rfl
  | cons x rest ih =>
    intro w dstSet
    obtain ⟨k, raw⟩ := x
    rw [unmarshalLoop]
    split
    · exact ih w dstSet
    · rename_i i fi
      split
      · exact ih w dstSet
      · split
        · exact ih w dstSet
        · split
          · rename_i fn hfn
            split
            · rename_i cv hcv
              split
              · split
                · rfl
                · exact ih _ _
              · exact ih w dstSet
            · exact ih w dstSet
          · split
            · exact ih w dstSet
            · split
              · rfl
              · exact ih _ _

theorem unmarshalAdditionalData_src (a : Adapter) (dt : SType) (srcAD : Value)
    (w : World) (dstSet : List String) :
    ((unmarshalAdditionalData a dt srcAD w dstSet).1).1.src = w.src := by
  unfold unmarshalAdditionalData
  cases srcAD <;> first
    | rfl
    | exact unmarshalLoop_src a dt _ w dstSet

theorem unmarshalStep_src (a : Adapter) (dt st : SType) (hasAD : Bool) (s1 : AdaptState) :
    ((unmarshalStep a dt st hasAD s1).1).w.src = s1.w.src := by
  unfold unmarshalStep
  split
  · rename_i j fAD hj
    split
    · rfl
    · split
      · rename_i w2 set2 e2 hu
        have hs := unmarshalAdditionalData_src a dt (s1.w.src.getF j) s1.w s1.dstSet
        rw [hu] at hs
        exact hs
      · rename_i w2 set2 hu
        have hs := unmarshalAdditionalData_src a dt (s1.w.src.getF j) s1.w s1.dstSet
        rw [hu] at hs
        exact hs
  · rfl

theorem marshalStep_src (a : Adapter) (dt st : SType) (s2 : AdaptState) :
    (marshalStep a dt st s2).src = s2.w.src := by
  unfold marshalStep
  split
  · split <;> rfl
  · rfl

theorem adaptStructW_src (a : Adapter) (dt st : SType) (w0 : World) :
    ((adaptStructW a dt st w0).1).src = w0.src := by
  simp only [adaptStructW]
  have hloop := adaptFieldsLoop_src a dt st
    ((adFind st).isSome || (adFind dt).isSome) (enumFields dt) ⟨w0, [], []⟩
  split
  · rename_i s1 e heq
    rw [heq] at hloop
    exact hloop
  · rename_i s1 heq
    rw [heq] at hloop
    have hum := unmarshalStep_src a dt st ((adFind st).isSome || (adFind dt).isSome) s1
    split
    · rename_i s2 e heq2
      rw [heq2] at hum
      rw [hum]
      exact hloop
    · rename_i s2 heq2
      rw [heq2] at hum
      rw [marshalStep_src, hum]
      exact hloop

theorem adaptFieldsLoop_setCI (a : Adapter) (b : Bool) (dt st : SType) (hasAD : Bool) :
    ∀ (L : List (Nat × FieldInfo)) (s : AdaptState),
      adaptFieldsLoop (setCI a b) dt st hasAD L s = adaptFieldsLoop a dt st hasAD L s := by
  intro L
  induction L with
  | nil => intro s; rfl
  | cons x rest ih =>
    intro s
    obtain ⟨i, df⟩ := x
    rw [adaptFieldsLoop, adaptFieldsLoop]
    have hAF : adaptField (setCI a b) = adaptField a := rfl
    simp only [hAF, ih]

theorem runValidators_empty (a : Adapter) (h : a.validators = ValRegistry.empty)
    (v : Value) (n : String) (st dt : SType) : runValidators a v n st dt = none := by
  unfold runValidators
  rw [h]
  rfl

theorem unmarshalLoop_scoped_converters_ignored (a : Adapter)
    (byDst : SType → String → Option Conv)
    (byPair : SType → SType → String → Option Conv) (dt : SType) :
    ∀ (kvs : List (String × Value)) (w : World) (dstSet : List String),
      unmarshalLoop (setScopedConverters a byDst byPair) dt kvs w dstSet =
        unmarshalLoop a dt kvs w dstSet := by
  intro kvs
  induction kvs with
  | nil => intro w dstSet; rfl
  | cons x rest ih =>
    intro w dstSet
    obtain ⟨k, raw⟩ := x
    rw [unmarshalLoop, unmarshalLoop]
    have h1 : (setScopedConverters a byDst byPair).options = a.options := rfl
    have h2 : (setScopedConverters a byDst byPair).converters.global = a.converters.global := rfl
    have h3 : runValidators (setScopedConverters a byDst byPair) = runValidators a := rfl
    simp only [h1, h2, h3, ih]

theorem unmarshalLoop_no_error_without_validators (a : Adapter)
    (hv : a.validators = ValRegistry.empty) (dt : SType) :
    ∀ (kvs : List (String × Value)) (w : World) (dstSet : List String),
      (unmarshalLoop a dt kvs w dstSet).2 = none := by
  intro kvs
  induction kvs with
  | nil => intro w dstSet; rfl
  | cons x rest ih =>
    intro w dstSet
    obtain ⟨k, raw⟩ := x
    rw [unmarshalLoop]
    split
    · exact ih w dstSet
    · rename_i i fi
      split
      · exact ih w dstSet
      · split
        · exact ih w dstSet
        · split
          · rename_i fn hfn
            split
            · rename_i cv hcv
              split
              · rw [runValidators_empty a hv]
                exact ih _ _
              · exact ih w dstSet
            · exact ih w dstSet
          · split
            · exact ih w dstSet
            · rw [runValidators_empty a hv]
              exact ih _ _

theorem list_getD_set_self : ∀ (l : List Value) (i : Nat) (x : Value), i < l.length →
    (l.set i x).getD i Value.vAbsent = x
  | [], i, _, h => absurd h (Nat.not_lt_zero i)
  | _ :: _, 0, _, _ => rfl
  | _ :: l, i + 1, x, h => list_getD_set_self l i x (Nat.lt_of_succ_lt_succ h)

theorem list_getD_set_ne : ∀ (l : List Value) (i m : Nat) (x : Value), m ≠ i →
    (l.set i x).getD m Value.vAbsent = l.getD m Value.vAbsent
  | [], _, _, _, _ => rfl
  | _ :: _, 0, 0, _, h => absurd rfl h
  | _ :: _, 0, _ + 1, _, _ => rfl
  | _ :: _, _ + 1, 0, _, _ => rfl
  | _ :: l, i + 1, m + 1, x, h =>
    list_getD_set_ne l i m x (fun hh => h (congrArg Nat.succ hh))

theorem list_getD_set_refl : ∀ (l : List Value) (i m : Nat),
    (l.set i (l.getD i Value.vAbsent)).getD m Value.vAbsent = l.getD m Value.vAbsent
  | [], _, _ => rfl
  | _ :: _, 0, _ => rfl
  | _ :: _, _ + 1, 0 => rfl
  | _ :: l, i + 1, m + 1 => list_getD_set_refl l i m

theorem getF_setF_self (v : SVal) (i : Nat) (x : Value) (h : i < v.vals.length) :
    (v.setF i x).getF i = x := list_getD_set_self v.vals i x h

theorem getF_setF_ne (v : SVal) (i m : Nat) (x : Value) (h : m ≠ i) :
    (v.setF i x).getF m = v.getF m := list_getD_set_ne v.vals i m x h

theorem getF_setF_refl (v : SVal) (i m : Nat) :
    (v.setF i (v.getF i)).getF m = v.getF m := list_getD_set_refl v.vals i m

theorem setF_length (v : SVal) (i : Nat) (x : Value) :
    (v.setF i x).vals.length = v.vals.length := List.length_set _ _ _

theorem setF_out_of_range (v : SVal) (i : Nat) (x : Value)
    (h : ¬ i < v.vals.length) : v.setF i x = v := by
  unfold SVal.setF
  rw [List.set_eq_of_length_le (by omega)]

theorem insertS_contains (k : String) (l : List String) (x : String) :
    (insertS k l).contains x = true ↔ (l.contains x = true ∨ x = k) := by
  unfold insertS
  split
  · rename_i h
    constructor
    · exact Or.inl
    · rintro (hx | rfl)
      · exact hx
      · exact h
  · constructor
    · intro hx
      rcases List.mem_cons.1 (by simpa using hx) with h2 | h2
      · exact Or.inr h2
      · exact Or.inl (by simpa using h2)
    · rintro (hx | rfl)
      · simp only [List.contains_cons]
        simp [by simpa using hx]
      · simp [List.contains_cons]

theorem enumF_map_snd : ∀ (n : Nat) (l : List FieldInfo), (enumF n l).map Prod.snd = l
  | _, [] => rfl
  | n, f :: l => by rw [enumF, List.map_cons, enumF_map_snd]

theorem mem_enumF_field : ∀ (n : Nat) (l : List FieldInfo) (i : Nat) (f : FieldInfo),
    (i, f) ∈ enumF n l → f ∈ l := by
  intro n l
  induction l generalizing n with
  | nil => intro i f h; cases h
  | cons g rest ih =>
    intro i f h
    rcases List.mem_cons.1 h with heq | htail
    · injection heq with h1 h2
      subst h2
      exact List.mem_cons_self _ _
    · exact List.mem_cons_of_mem _ (ih (n + 1) i f htail)

theorem mem_enumF_bound : ∀ (n : Nat) (l : List FieldInfo) (i : Nat) (f : FieldInfo),
    (i, f) ∈ enumF n l → n ≤ i ∧ i < n + l.length := by
  intro n l
  induction l generalizing n with
  | nil => intro i f h; cases h
  | cons g rest ih =>
    intro i f h
    rcases List.mem_cons.1 h with heq | htail
    · injection heq with h1 h2
      subst h1
      refine ⟨Nat.le_refl _, ?_⟩
      simp only [List.length_cons]
      omega
    · obtain ⟨h1, h2⟩ := ih (n + 1) i f htail
      constructor
      · omega
      · simp only [List.length_cons]
        omega

theorem enumF_functional : ∀ (n : Nat) (l : List FieldInfo) (i : Nat) (f g : FieldInfo),
    (i, f) ∈ enumF n l → (i, g) ∈ enumF n l → f = g := by
  intro n l
  induction l generalizing n with
  | nil => intro i f g h; cases h
  | cons x rest ih =>
    intro i f g hf hg
    rcases List.mem_cons.1 hf with h1 | h1 <;> rcases List.mem_cons.1 hg with h2 | h2
    · injection h1 with h1a h1b
      injection h2 with h2a h2b
      exact h1b.trans h2b.symm
    · injection h1 with h1a h1b
      subst h1a
      exact absurd (mem_enumF_bound _ _ _ _ h2).1 (by omega)
    · injection h2 with h2a h2b
      subst h2a
      exact absurd (mem_enumF_bound _ _ _ _ h1).1 (by omega)
    · exact ih (n + 1) i f g h1 h2

theorem mem_enumF_getD : ∀ (n : Nat) (l : List FieldInfo) (i : Nat) (f : FieldInfo),
    (i, f) ∈ enumF n l → l.getD (i - n) dfltField = f := by
  intro n l
  induction l generalizing n with
  | nil => intro i f h; cases h
  | cons g rest ih =>
    intro i f h
    rcases List.mem_cons.1 h with heq | htail
    · injection heq with h1 h2
      subst h1
      subst h2
      simp
    · have hb := (mem_enumF_bound _ _ _ _ htail).1
      have hi : i - n = (i - (n + 1)) + 1 := by omega
      rw [hi]
      exact ih (n + 1) i f htail

theorem getD_mem_enumF : ∀ (n : Nat) (l : List FieldInfo) (m : Nat), m < l.length →
    (n + m, l.getD m dfltField) ∈ enumF n l := by
  intro n l
  induction l generalizing n with
  | nil => intro m h; exact absurd h (Nat.not_lt_zero m)
  | cons g rest ih =>
    intro m h
    cases m with
    | zero => simp [enumF]
    | succ m2 =>
      have := ih (n + 1) m2 (Nat.lt_of_succ_lt_succ h)
      rw [enumF]
      refine List.mem_cons_of_mem _ ?_
      have harith : n + 1 + m2 = n + (m2 + 1) := by omega
      rw [harith] at this
      simpa using this

theorem lastFind_sat (p : FieldInfo → Bool) :
    ∀ (L : List (Nat × FieldInfo)) (x : Nat × FieldInfo),
      lastFind p L = some x → p x.2 = true := by
  intro L
  induction L with
  | nil => intro x h; cases h
  | cons z rest ih =>
    intro x h
    rw [lastFind] at h
    split at h
    · rename_i r hr
      cases h
      exact ih _ hr
    · split at h
      · cases h
        assumption
      · cases h

theorem lastFind_mem (p : FieldInfo → Bool) :
    ∀ (L : List (Nat × FieldInfo)) (x : Nat × FieldInfo),
      lastFind p L = some x → x ∈ L := by
  intro L
  induction L with
  | nil => intro x h; cases h
  | cons z rest ih =>
    intro x h
    rw [lastFind] at h
    split at h
    · rename_i r hr
      cases h
      exact List.mem_cons_of_mem _ (ih _ hr)
    · split at h
      · cases h
        exact List.mem_cons_self _ _
      · cases h

theorem lastFind_eq_none (p : FieldInfo → Bool) :
    ∀ (L : List (Nat × FieldInfo)), lastFind p L = none →
      ∀ x ∈ L, p x.2 = false := by
  intro L
  induction L with
  | nil => intro _ x h; cases h
  | cons z rest ih =>
    intro h x hx
    rw [lastFind] at h
    split at h
    · cases h
    · rename_i hr
      split at h
      · cases h
      · rename_i hpz
        rcases List.mem_cons.1 hx with heq | htail
        · subst heq
          simpa using hpz
        · exact ih hr x htail

theorem lastFind_none_of (p : FieldInfo → Bool) :
    ∀ (L : List (Nat × FieldInfo)), (∀ x ∈ L, p x.2 = false) → lastFind p L = none := by
  intro L
  induction L with
  | nil => intro _; rfl
  | cons z rest ih =>
    intro h
    rw [lastFind]
    rw [ih (fun x hx => h x (List.mem_cons_of_mem _ hx))]
    simp [h z (List.mem_cons_self _ _)]

theorem lastFind_unique (p : FieldInfo → Bool) :
    ∀ (L : List (Nat × FieldInfo)) (x : Nat × FieldInfo), x ∈ L → p x.2 = true →
      (∀ y ∈ L, p y.2 = true → y = x) → lastFind p L = some x := by
  intro L
  induction L with
  | nil => intro x h; cases h
  | cons z rest ih =>
    intro x hx hpx huniq
    rw [lastFind]
    cases hr : lastFind p rest with
    | some y =>
      have hy := lastFind_mem p rest y hr
      have hpy := lastFind_sat p rest y hr
      rw [huniq y (List.mem_cons_of_mem _ hy) hpy]
    | none =>
      have hnone := lastFind_eq_none p rest hr
      rcases List.mem_cons.1 hx with heq | htail
      · subst heq
        simp [hpx]
      · exact absurd (hnone x htail) (by simp [hpx])

theorem fieldsByName_name (t : SType) (n : String) (j : Nat) (f : FieldInfo)
    (h : fieldsByName t n = some (j, f)) : f.name = n :=
  beq_iff_eq.mp (lastFind_sat _ _ _ h)

theorem fieldsByName_mem (t : SType) (n : String) (j : Nat) (f : FieldInfo)
    (h : fieldsByName t n = some (j, f)) : (j, f) ∈ enumFields t :=
  lastFind_mem _ _ _ h

theorem fieldsByName_eq_none (t : SType) (n : String)
    (h : ∀ g ∈ t.fields, g.name ≠ n) : fieldsByName t n = none := by
  apply lastFind_none_of
  intro x hx
  have hf := mem_enumF_field 0 t.fields x.1 x.2 (by cases x; exact hx)
  have := h x.2 hf
  simpa using this

theorem fieldsByName_unique (t : SType)
    (hnd : (t.fields.map FieldInfo.name).Nodup) (j : Nat) (f : FieldInfo)
    (hm : (j, f) ∈ enumFields t) : fieldsByName t f.name = some (j, f) := by
  apply lastFind_unique _ _ _ hm (by simp)
  intro y hy hpy
  have hinj : ∀ x ∈ enumFields t, ∀ z ∈ enumFields t,
      x.2.name = z.2.name → x = z := by
    intro x hx z hz hnames
    have hnd2 : ((enumFields t).map (fun p => p.2.name)).Nodup := by
      have hcomp : (enumFields t).map (fun p : Nat × FieldInfo => p.2.name) =
          ((enumFields t).map Prod.snd).map FieldInfo.name := by
        rw [List.map_map]
        rfl
      have hsnd : (enumFields t).map Prod.snd = t.fields := enumF_map_snd 0 t.fields
      rw [hcomp, hsnd]
      exact hnd
    exact List.inj_on_of_nodup_map hnd2 hx hz hnames
  exact hinj y hy (j, f) hm (beq_iff_eq.mp hpy)

theorem findSrcIdx_plain (st : SType) (df : FieldInfo) (h : df.jsonName = "") :
    findSrcIdx st df = fieldsByName st df.name := by
  unfold findSrcIdx
  cases hx : fieldsByName st df.name
  · simp [h]
  · rfl

theorem adFind_none (t : SType) (h : ∀ f ∈ t.fields, f.isAdditionalData = false) :
    adFind t = none := by
  unfold adFind
  rw [List.find?_eq_none]
  intro x hx
  have := h x.2 (mem_enumF_field 0 t.fields x.1 x.2 (by cases x; exact hx))
  simp [this]

theorem adFind_mem (t : SType) (j : Nat) (f : FieldInfo)
    (h : adFind t = some (j, f)) :
    (j, f) ∈ enumFields t ∧ f.isAdditionalData = true :=
  ⟨List.mem_of_find?_eq_some h, by simpa using List.find?_some h⟩

theorem wellTyped_length (t : SType) (v : SVal) (h : SVal.wellTyped t v = true) :
    v.vals.length = t.fields.length := by
  unfold SVal.wellTyped at h
  rw [Bool.and_eq_true] at h
  exact beq_iff_eq.mp h.1

theorem zip_all_ty : ∀ (fs : List FieldInfo) (vs : List Value),
    ((fs.zip vs).all (fun p => p.2.ty == p.1.ty)) = true →
    ∀ m, m < fs.length → m < vs.length →
      (vs.getD m Value.vAbsent).ty = (fs.getD m dfltField).ty := by
  intro fs
  induction fs with
  | nil => intro vs _ m h; exact absurd h (Nat.not_lt_zero m)
  | cons f rest ih =>
    intro vs hall m hm hv
    cases vs with
    | nil => exact absurd hv (Nat.not_lt_zero m)
    | cons v vrest =>
      rw [List.zip_cons_cons, List.all_cons, Bool.and_eq_true] at hall
      cases m with
      | zero => simpa using beq_iff_eq.mp hall.1
      | succ m2 =>
        exact ih vrest hall.2 m2 (Nat.lt_of_succ_lt_succ hm) (Nat.lt_of_succ_lt_succ hv)

theorem wellTyped_getF (t : SType) (v : SVal) (h : SVal.wellTyped t v = true)
    (m : Nat) (f : FieldInfo) (hm : (m, f) ∈ enumFields t) : (v.getF m).ty = f.ty := by
  have hlen := wellTyped_length t v h
  have hb := mem_enumF_bound 0 t.fields m f hm
  have h2 := h
  unfold SVal.wellTyped at h2
  rw [Bool.and_eq_true] at h2
  have := zip_all_ty t.fields v.vals h2.2 m (by omega) (by omega)
  have hgd := mem_enumF_getD 0 t.fields m f hm
  rw [Nat.sub_zero] at hgd
  rw [hgd] at this
  simpa [SVal.getF] using this

theorem list_ext_getD : ∀ (l1 l2 : List Value), l1.length = l2.length →
    (∀ m, m < l1.length → l1.getD m Value.vAbsent = l2.getD m Value.vAbsent) →
    l1 = l2 := by
  intro l1
  induction l1 with
  | nil =>
    intro l2 hlen _
    cases l2
    · rfl
    · cases hlen
  | cons a rest ih =>
    intro l2 hlen hget
    cases l2 with
    | nil => cases hlen
    | cons b rest2 =>
      have h0 : a = b := hget 0 (by simp)
      rw [List.length_cons, List.length_cons] at hlen
      have hrest : rest = rest2 := by
        apply ih rest2 (by omega)
        intro m hm
        exact hget (m + 1) (by simp only [List.length_cons]; omega)
      rw [h0, hrest]

theorem sval_ext (v1 v2 : SVal) (hlen : v1.vals.length = v2.vals.length)
    (h : ∀ m, m < v1.vals.length → v1.getF m = v2.getF m) : v1 = v2 := by
  cases v1
  cases v2
  simp only [SVal.mk.injEq]
  exact list_ext_getD _ _ hlen h

theorem isZero_eq_zeroOf (v : Value) (t : Ty) (hty : v.ty = t) (hnj : t ≠ Ty.tJson)
    (hz : v.isZero = true) : v = zeroOf t := by
  cases v <;> cases t <;> simp_all [Value.ty, Value.isZero, zeroOf]

theorem collectRemaining_keys_nodup (a : Adapter) (srcV : SVal) (processed : List String) :
    ∀ (L : List (Nat × FieldInfo)),
      ((collectRemaining a srcV processed L).map Prod.fst).Nodup := by
  intro L
  induction L with
  | nil => exact List.nodup_nil
  | cons x rest ih =>
    obtain ⟨i, sf⟩ := x
    rw [collectRemaining]
    split
    · exact ih
    · split
      · exact ih
      · split
        · exact ih
        · split
          · exact ih
          · rename_i hany
            rw [List.map_cons, List.nodup_cons]
            refine ⟨?_, ih⟩
            intro hmem
            apply hany
            rw [List.any_eq_true]
            rw [List.mem_map] at hmem
            obtain ⟨p, hp, hpn⟩ := hmem
            exact ⟨p, hp, by simp [hpn]⟩

theorem adaptField_empty_reg (a : Adapter) (hc : a.converters = ConvRegistry.empty)
    (hv : a.validators = ValRegistry.empty) (dstTy : Ty) (dstCur srcV : Value)
    (n : String) (st dt : SType) :
    adaptField a dstTy dstCur srcV true n st dt =
      .ok (if srcV.ty == dstTy then srcV else dstCur) := by
  unfold adaptField
  rw [hc]
  simp only [ConvRegistry.empty, Bool.not_true, Bool.false_eq_true, if_false]
  rw [runValidators_empty a hv, runValidators_empty a hv]
  simp only [Ty.assignableTo, Ty.convertibleTo, Value.convert, Bool.or_self]
  cases h : srcV.ty == dstTy <;> simp

theorem collectRemaining_no_zero (a : Adapter) (hz : a.options.IncludeZeroValues = false)
    (srcV : SVal) (processed : List String) :
    ∀ (L : List (Nat × FieldInfo)) (k : String) (val : Value),
      (k, val) ∈ collectRemaining a srcV processed L → val.isZero = false := by
  intro L
  induction L with
  | nil => intro k val h; cases h
  | cons x rest ih =>
    intro k val h
    obtain ⟨i, sf⟩ := x
    rw [collectRemaining] at h
    split at h
    · exact ih k val h
    · split at h
      · exact ih k val h
      · split at h
        · exact ih k val h
        · split at h
          · exact ih k val h
          · rename_i hzv _
            rcases List.mem_cons.1 h with heq | htail
            · cases heq
              simpa [hz] using hzv
            · exact ih k val htail

theorem collectRemaining_mem (a : Adapter) (srcV : SVal) (processed : List String) :
    ∀ (L : List (Nat × FieldInfo)) (k : String) (val : Value),
      (k, val) ∈ collectRemaining a srcV processed L →
      ∃ i sf, (i, sf) ∈ L ∧ sf.name = k ∧ val = srcV.getF i ∧
        sf.isAdditionalData = false ∧ sf.ignore = false ∧
        processed.contains sf.name = false := by
  intro L
  induction L with
  | nil => intro k val h; cases h
  | cons x rest ih =>
    intro k val h
    obtain ⟨i, sf⟩ := x
    rw [collectRemaining] at h
    split at h
    · obtain ⟨i2, sf2, hm, hrest⟩ := ih k val h
      exact ⟨i2, sf2, List.mem_cons_of_mem _ hm, hrest⟩
    · split at h
      · obtain ⟨i2, sf2, hm, hrest⟩ := ih k val h
        exact ⟨i2, sf2, List.mem_cons_of_mem _ hm, hrest⟩
      · split at h
        · obtain ⟨i2, sf2, hm, hrest⟩ := ih k val h
          exact ⟨i2, sf2, List.mem_cons_of_mem _ hm, hrest⟩
        · split at h
          · obtain ⟨i2, sf2, hm, hrest⟩ := ih k val h
            exact ⟨i2, sf2, List.mem_cons_of_mem _ hm, hrest⟩
          · rename_i hAD hpr _ _
            rcases List.mem_cons.1 h with heq | htail
            · cases heq
              refine ⟨i, sf, List.mem_cons_self _ _, rfl, rfl, ?_, ?_, ?_⟩
              · cases hx : sf.isAdditionalData
                · rfl
                · exact absurd (by simp [hx]) hAD
              · cases hx : sf.ignore
                · rfl
                · exact absurd (by simp [hx]) hAD
              · cases hx : processed.contains sf.name
                · rfl
                · exact absurd hx hpr
            · obtain ⟨i2, sf2, hm, hrest⟩ := ih k val htail
              exact ⟨i2, sf2, List.mem_cons_of_mem _ hm, hrest⟩

theorem collectRemaining_empty (a : Adapter) (srcV : SVal) (processed : List String) :
    ∀ (L : List (Nat × FieldInfo)),
      (∀ p ∈ L, p.2.isAdditionalData = true ∨ p.2.ignore = true ∨
        processed.contains p.2.name = true ∨
        (a.options.IncludeZeroValues = false ∧ (srcV.getF p.1).isZero = true)) →
      collectRemaining a srcV processed L = [] := by
  intro L
  induction L with
  | nil => intro _; rfl
  | cons x rest ih =>
    intro h
    obtain ⟨i, sf⟩ := x
    have hrest := ih (fun p hp => h p (List.mem_cons_of_mem _ hp))
    have hx := h (i, sf) (List.mem_cons_self _ _)
    dsimp only at hx
    rw [collectRemaining]
    simp only [hrest]
    rcases hx with hx | hx | hx | hx
    · simp [hx]
    · simp [hx]
    · have hm : sf.name ∈ processed := by simpa using hx
      simp [hm]
    · simp [hx.1, hx.2]

theorem collectRemaining_mem_of (a : Adapter) (srcV : SVal) (processed : List String) :
    ∀ (L : List (Nat × FieldInfo)) (i : Nat) (sf : FieldInfo),
      (i, sf) ∈ L →
      (L.map (fun p => p.2.name)).Nodup →
      sf.isAdditionalData = false → sf.ignore = false →
      processed.contains sf.name = false →
      (a.options.IncludeZeroValues = true ∨ (srcV.getF i).isZero = false) →
      (sf.name, srcV.getF i) ∈ collectRemaining a srcV processed L := by
  intro L
  induction L with
  | nil => intro i sf h; cases h
  | cons x rest ih =>
    intro i sf hmem hnd hAD hig hpr hz
    obtain ⟨i0, sf0⟩ := x
    rw [List.map_cons, List.nodup_cons] at hnd
    obtain ⟨hnotin, hndrest⟩ := hnd
    rcases List.mem_cons.1 hmem with heq | htail
    · injection heq with heqi heqf
      subst heqi
      subst heqf
      rw [collectRemaining]
      have hzcond : (!a.options.IncludeZeroValues && (srcV.getF i).isZero) = false := by
        rcases hz with hz | hz <;> simp [hz]
      have hany : (collectRemaining a srcV processed rest).any
          (fun p => p.1 == sf.name) = false := by
        cases hany : (collectRemaining a srcV processed rest).any
            (fun p => p.1 == sf.name)
        · rfl
        · exfalso
          rw [List.any_eq_true] at hany
          obtain ⟨⟨k2, v2⟩, hm2, hk2⟩ := hany
          obtain ⟨i3, sf3, hm3, hn3, _⟩ := collectRemaining_mem a srcV processed rest k2 v2 hm2
          apply hnotin
          rw [List.mem_map]
          refine ⟨(i3, sf3), hm3, ?_⟩
          simp only at hk2 ⊢
          rw [hn3]
          exact beq_iff_eq.1 hk2
      simp only [hAD, hig, hpr, hzcond, hany, Bool.or_self, Bool.false_eq_true, if_false]
      exact List.mem_cons_self _ _
    · have htl := ih i sf htail hndrest hAD hig hpr hz
      rw [collectRemaining]
      split
      · exact htl
      · split
        · exact htl
        · split
          · exact htl
          · split
            · exact htl
            · exact List.mem_cons_of_mem _ htl

theorem adaptFieldsLoop_cons_skip (a : Adapter) (dt st : SType) (hasAD : Bool)
    (i : Nat) (df : FieldInfo) (rest : List (Nat × FieldInfo)) (s : AdaptState)
    (h : (!df.canSet || df.isAdditionalData || df.ignore) = true) :
    adaptFieldsLoop a dt st hasAD ((i, df) :: rest) s =
      adaptFieldsLoop a dt st hasAD rest s := by
  rw [adaptFieldsLoop, if_pos h]

theorem adaptFieldsLoop_cons_nomatch (a : Adapter) (dt st : SType) (hasAD : Bool)
    (i : Nat) (df : FieldInfo) (rest : List (Nat × FieldInfo)) (s : AdaptState)
    (hns : (!df.canSet || df.isAdditionalData || df.ignore) = false)
    (hfind : findSrcIdx st df = none) :
    adaptFieldsLoop a dt st hasAD ((i, df) :: rest) s =
      adaptFieldsLoop a dt st hasAD rest s := by
  rw [adaptFieldsLoop, if_neg (by simp [hns])]
  simp only [hfind]

theorem adaptFieldsLoop_cons_srcad (a : Adapter) (dt st : SType)
    (i : Nat) (df : FieldInfo) (rest : List (Nat × FieldInfo)) (s : AdaptState)
    (j : Nat) (sf : FieldInfo)
    (hns : (!df.canSet || df.isAdditionalData || df.ignore) = false)
    (hfind : findSrcIdx st df = some (j, sf))
    (hsf : (sf.isAdditionalData || sf.ignore) = true) :
    adaptFieldsLoop a dt st true ((i, df) :: rest) s =
      adaptFieldsLoop a dt st true rest
        { s with processed := insertS sf.name s.processed } := by
  rw [adaptFieldsLoop, if_neg (by simp [hns])]
  simp only [hfind]
  rw [if_pos hsf]
  simp

theorem adaptFieldsLoop_cons_set (a : Adapter) (dt st : SType)
    (i : Nat) (df : FieldInfo) (rest : List (Nat × FieldInfo)) (s : AdaptState)
    (j : Nat) (sf : FieldInfo) (newV : Value)
    (hns : (!df.canSet || df.isAdditionalData || df.ignore) = false)
    (hfind : findSrcIdx st df = some (j, sf))
    (hsf : (sf.isAdditionalData || sf.ignore) = false)
    (hAF : adaptField a df.ty (s.w.dst.getF i) (s.w.src.getF j) df.canSet df.name st dt =
      .ok newV) :
    adaptFieldsLoop a dt st true ((i, df) :: rest) s =
      adaptFieldsLoop a dt st true rest
        ⟨s.w.setDst i newV, insertS sf.name s.processed, insertS df.name s.dstSet⟩ := by
  rw [adaptFieldsLoop, if_neg (by simp [hns])]
  simp only [hfind]
  rw [if_neg (by simp [hsf])]
  simp only [hAF]
  simp

theorem adaptFieldsLoop_empty_reg (a : Adapter) (hc : a.converters = ConvRegistry.empty)
    (hv : a.validators = ValRegistry.empty) (td ts : SType) :
    ∀ (L : List (Nat × FieldInfo)) (s : AdaptState),
      (∀ p ∈ L, p.2.canSet = true ∧ p.2.ignore = false ∧ p.2.jsonName = "") →
      ((L.map Prod.fst).Nodup) →
      (adaptFieldsLoop a td ts true L s).2 = none ∧
      ((adaptFieldsLoop a td ts true L s).1).w.src = s.w.src ∧
      ((adaptFieldsLoop a td ts true L s).1).w.dst.vals.length = s.w.dst.vals.length ∧
      (∀ x, ((adaptFieldsLoop a td ts true L s).1).processed.contains x = true ↔
        (s.processed.contains x = true ∨
          ∃ p ∈ L, p.2.isAdditionalData = false ∧ p.2.name = x ∧
            (fieldsByName ts x).isSome = true)) ∧
      (∀ x, ((adaptFieldsLoop a td ts true L s).1).dstSet.contains x = true ↔
        (s.dstSet.contains x = true ∨
          ∃ p ∈ L, p.2.isAdditionalData = false ∧ p.2.name = x ∧
            ∃ j sf, fieldsByName ts x = some (j, sf) ∧ sf.isAdditionalData = false ∧
              sf.ignore = false)) ∧
      (∀ m g j sf, (m, g) ∈ L → g.isAdditionalData = false →
        fieldsByName ts g.name = some (j, sf) → sf.isAdditionalData = false →
        sf.ignore = false → (s.w.src.getF j).ty = g.ty →
        ((adaptFieldsLoop a td ts true L s).1).w.dst.getF m =
          (if m < s.w.dst.vals.length then s.w.src.getF j else s.w.dst.getF m)) ∧
      (∀ m, (∀ g, (m, g) ∈ L → g.isAdditionalData = false →
          ∀ j sf, fieldsByName ts g.name = some (j, sf) →
            sf.isAdditionalData = true ∨ sf.ignore = true ∨ (s.w.src.getF j).ty ≠ g.ty) →
        ((adaptFieldsLoop a td ts true L s).1).w.dst.getF m = s.w.dst.getF m) := by
  intro L
  induction L with
  | nil =>
    intro s _ _
    refine ⟨rfl, rfl, rfl, ?_, ?_, ?_, ?_⟩
    · intro x
      simp [adaptFieldsLoop]
    · intro x
      simp [adaptFieldsLoop]
    · intro m g j sf hm
      cases hm
    · intro m _
      rfl
  | cons hd rest ih =>
    intro s hprops hnd
    obtain ⟨i0, g0⟩ := hd
    obtain ⟨hcs0, hig0, hjn0⟩ := hprops (i0, g0) (List.mem_cons_self _ _)
    have hcs : g0.canSet = true := hcs0
    have hig : g0.ignore = false := hig0
    have hjn : g0.jsonName = "" := hjn0
    rw [List.map_cons, List.nodup_cons] at hnd
    obtain ⟨hi0notin, hndrest⟩ := hnd
    have hpropsrest : ∀ p ∈ rest, p.2.canSet = true ∧ p.2.ignore = false ∧ p.2.jsonName = "" :=
      fun p hp => hprops p (List.mem_cons_of_mem _ hp)
    have hnotrest : ∀ g2, (i0, g2) ∉ rest := by
      intro g2 hmem
      exact hi0notin (List.mem_map.2 ⟨(i0, g2), hmem, rfl⟩)
    have hns0 : (!g0.canSet || g0.isAdditionalData || g0.ignore) = g0.isAdditionalData := by
      rw [hcs, hig]
      simp
    cases hAD : g0.isAdditionalData with
    | true =>
      rw [adaptFieldsLoop_cons_skip a td ts true i0 g0 rest s (by rw [hns0, hAD])]
      obtain ⟨ihe, ihs, ihl, ihp, ihd, ihset, ihun⟩ := ih s hpropsrest hndrest
      refine ⟨ihe, ihs, ihl, ?_, ?_, ?_, ?_⟩
      · intro x
        rw [ihp x]
        constructor
        · rintro (h | ⟨p, hp, hrest⟩)
          · exact Or.inl h
          · exact Or.inr ⟨p, List.mem_cons_of_mem _ hp, hrest⟩
        · rintro (h | ⟨p, hp, hrest⟩)
          · exact Or.inl h
          · rcases List.mem_cons.1 hp with rfl | hp2
            · rw [hAD] at hrest
              exact absurd hrest.1 (by simp)
            · exact Or.inr ⟨p, hp2, hrest⟩
      · intro x
        rw [ihd x]
        constructor
        · rintro (h | ⟨p, hp, hrest⟩)
          · exact Or.inl h
          · exact Or.inr ⟨p, List.mem_cons_of_mem _ hp, hrest⟩
        · rintro (h | ⟨p, hp, hrest⟩)
          · exact Or.inl h
          · rcases List.mem_cons.1 hp with rfl | hp2
            · rw [hAD] at hrest
              exact absurd hrest.1 (by simp)
            · exact Or.inr ⟨p, hp2, hrest⟩
      · intro m g j sf hm hgad hlook hsfad hsfig hty
        rcases List.mem_cons.1 hm with heq | hm2
        · injection heq with h1 h2
          subst h2
          rw [hAD] at hgad
          cases hgad
        · exact ihset m g j sf hm2 hgad hlook hsfad hsfig hty
      · intro m hcond
        exact ihun m (fun g hg => hcond g (List.mem_cons_of_mem _ hg))
    | false =>
      have hns : (!g0.canSet || g0.isAdditionalData || g0.ignore) = false := by
        rw [hns0, hAD]
      cases hfind : fieldsByName ts g0.name with
      | none =>
        rw [adaptFieldsLoop_cons_nomatch a td ts true i0 g0 rest s hns
          (by rw [findSrcIdx_plain ts g0 hjn, hfind])]
        obtain ⟨ihe, ihs, ihl, ihp, ihd, ihset, ihun⟩ := ih s hpropsrest hndrest
        refine ⟨ihe, ihs, ihl, ?_, ?_, ?_, ?_⟩
        · intro x
          rw [ihp x]
          constructor
          · rintro (h | ⟨p, hp, hrest⟩)
            · exact Or.inl h
            · exact Or.inr ⟨p, List.mem_cons_of_mem _ hp, hrest⟩
          · rintro (h | ⟨p, hp, hrest⟩)
            · exact Or.inl h
            · rcases List.mem_cons.1 hp with rfl | hp2
              · rw [hrest.2.1] at hfind
                rw [hfind] at hrest
                exact absurd hrest.2.2 (by simp)
              · exact Or.inr ⟨p, hp2, hrest⟩
        · intro x
          rw [ihd x]
          constructor
          · rintro (h | ⟨p, hp, hrest⟩)
            · exact Or.inl h
            · exact Or.inr ⟨p, List.mem_cons_of_mem _ hp, hrest⟩
          · rintro (h | ⟨p, hp, hrest⟩)
            · exact Or.inl h
            · rcases List.mem_cons.1 hp with rfl | hp2
              · obtain ⟨j, sf, hlook, _⟩ := hrest.2.2
                rw [hrest.2.1] at hfind
                rw [hfind] at hlook
                cases hlook
              · exact Or.inr ⟨p, hp2, hrest⟩
        · intro m g j sf hm hgad hlook hsfad hsfig hty
          rcases List.mem_cons.1 hm with heq | hm2
          · injection heq with h1 h2
            subst h2
            rw [hfind] at hlook
            cases hlook
          · exact ihset m g j sf hm2 hgad hlook hsfad hsfig hty
        · intro m hcond
          exact ihun m (fun g hg => hcond g (List.mem_cons_of_mem _ hg))
      | some r =>
        obtain ⟨j0, sf0⟩ := r
        have hname0 : sf0.name = g0.name := fieldsByName_name ts g0.name j0 sf0 hfind
        have hfind2 : findSrcIdx ts g0 = some (j0, sf0) := by
          rw [findSrcIdx_plain ts g0 hjn, hfind]
        by_cases hsf2 : (sf0.isAdditionalData || sf0.ignore) = true
        case pos =>
          rw [adaptFieldsLoop_cons_srcad a td ts i0 g0 rest s j0 sf0 hns hfind2 hsf2]
          obtain ⟨ihe, ihs, ihl, ihp, ihd, ihset, ihun⟩ :=
            ih { s with processed := insertS sf0.name s.processed } hpropsrest hndrest
          refine ⟨ihe, ihs, ihl, ?_, ?_, ?_, ?_⟩
          · intro x
            rw [ihp x]
            constructor
            · rintro (h | ⟨p, hp, hrest⟩)
              · rcases (insertS_contains _ _ _).1 h with h2 | h2
                · exact Or.inl h2
                · refine Or.inr ⟨(i0, g0), List.mem_cons_self _ _, hAD, ?_, ?_⟩
                  · rw [h2, hname0]
                  · rw [h2, hname0, hfind]
                    rfl
              · exact Or.inr ⟨p, List.mem_cons_of_mem _ hp, hrest⟩
            · rintro (h | ⟨p, hp, hrest⟩)
              · exact Or.inl ((insertS_contains _ _ _).2 (Or.inl h))
              · rcases List.mem_cons.1 hp with rfl | hp2
                · exact Or.inl ((insertS_contains _ _ _).2
                    (Or.inr (by rw [← hrest.2.1, hname0])))
                · exact Or.inr ⟨p, hp2, hrest⟩
          · intro x
            rw [ihd x]
            constructor
            · rintro (h | ⟨p, hp, hrest⟩)
              · exact Or.inl h
              · exact Or.inr ⟨p, List.mem_cons_of_mem _ hp, hrest⟩
            · rintro (h | ⟨p, hp, hrest⟩)
              · exact Or.inl h
              · rcases List.mem_cons.1 hp with rfl | hp2
                · obtain ⟨j, sf, hlook, hsfa, hsfi⟩ := hrest.2.2
                  rw [hrest.2.1] at hfind
                  rw [hfind] at hlook
                  injection hlook with hlook2
                  injection hlook2 with hl1 hl2
                  subst hl2
                  rw [hsfa, hsfi] at hsf2
                  exact absurd hsf2 (by simp)
                · exact Or.inr ⟨p, hp2, hrest⟩
          · intro m g j sf hm hgad hlook hsfad hsfig hty
            rcases List.mem_cons.1 hm with heq | hm2
            · injection heq with h1 h2
              subst h2
              rw [hfind] at hlook
              injection hlook with hlook2
              injection hlook2 with hl1 hl2
              subst hl2
              rw [hsfad, hsfig] at hsf2
              exact absurd hsf2 (by simp)
            · exact ihset m g j sf hm2 hgad hlook hsfad hsfig hty
          · intro m hcond
            exact ihun m (fun g hg => hcond g (List.mem_cons_of_mem _ hg))
        case neg =>
          have hsf : (sf0.isAdditionalData || sf0.ignore) = false := by
            cases h2 : (sf0.isAdditionalData || sf0.ignore)
            · rfl
            · exact absurd h2 hsf2
          have hsfa : sf0.isAdditionalData = false := by
            cases hx : sf0.isAdditionalData
            · rfl
            · rw [hx] at hsf; simp at hsf
          have hsfi : sf0.ignore = false := by
            cases hx : sf0.ignore
            · rfl
            · rw [hx] at hsf; simp at hsf
          have hAF := adaptField_empty_reg a hc hv g0.ty (s.w.dst.getF i0)
            (s.w.src.getF j0) g0.name ts td
          rw [adaptFieldsLoop_cons_set a td ts i0 g0 rest s j0 sf0
            (if (s.w.src.getF j0).ty == g0.ty then s.w.src.getF j0 else s.w.dst.getF i0)
            hns hfind2 hsf (by rw [hcs]; exact hAF)]
          obtain ⟨ihe, ihs, ihl, ihp, ihd, ihset, ihun⟩ :=
            ih ⟨s.w.setDst i0 (if (s.w.src.getF j0).ty == g0.ty then s.w.src.getF j0
                  else s.w.dst.getF i0),
                insertS sf0.name s.processed, insertS g0.name s.dstSet⟩
              hpropsrest hndrest
          have hsrc2 : (World.setDst s.w i0 (if (s.w.src.getF j0).ty == g0.ty
              then s.w.src.getF j0 else s.w.dst.getF i0)).src = s.w.src := rfl
          refine ⟨ihe, ?_, ?_, ?_, ?_, ?_, ?_⟩
          · rw [ihs]
            exact hsrc2
          · rw [ihl]
            exact setF_length _ _ _
          · intro x
            rw [ihp x]
            constructor
            · rintro (h | ⟨p, hp, hrest⟩)
              · rcases (insertS_contains _ _ _).1 h with h2 | h2
                · exact Or.inl h2
                · refine Or.inr ⟨(i0, g0), List.mem_cons_self _ _, hAD, ?_, ?_⟩
                  · rw [h2, hname0]
                  · rw [h2, hname0, hfind]
                    rfl
              · exact Or.inr ⟨p, List.mem_cons_of_mem _ hp, hrest⟩
            · rintro (h | ⟨p, hp, hrest⟩)
              · exact Or.inl ((insertS_contains _ _ _).2 (Or.inl h))
              · rcases List.mem_cons.1 hp with rfl | hp2
                · exact Or.inl ((insertS_contains _ _ _).2
                    (Or.inr (by rw [← hrest.2.1, hname0])))
                · exact Or.inr ⟨p, hp2, hrest⟩
          · intro x
            rw [ihd x]
            constructor
            · rintro (h | ⟨p, hp, hrest⟩)
              · rcases (insertS_contains _ _ _).1 h with h2 | h2
                · exact Or.inl h2
                · refine Or.inr ⟨(i0, g0), List.mem_cons_self _ _, hAD, h2.symm ▸ rfl, ?_⟩
                  exact ⟨j0, sf0, by rw [h2]; exact ⟨hfind, hsfa, hsfi⟩⟩
              · exact Or.inr ⟨p, List.mem_cons_of_mem _ hp, hrest⟩
            · rintro (h | ⟨p, hp, hrest⟩)
              · exact Or.inl ((insertS_contains _ _ _).2 (Or.inl h))
              · rcases List.mem_cons.1 hp with rfl | hp2
                · exact Or.inl ((insertS_contains _ _ _).2 (Or.inr hrest.2.1.symm))
                · exact Or.inr ⟨p, hp2, hrest⟩
          · intro m g j sf hm hgad hlook hsfad hsfig hty
            rcases List.mem_cons.1 hm with heq | hm2
            · injection heq with h1 h2
              subst h1
              subst h2
              rw [hfind] at hlook
              injection hlook with hlook2
              injection hlook2 with hl1 hl2
              subst hl1
              subst hl2
              have hrw := ihun m (fun g2 hg2 => absurd hg2 (hnotrest g2))
              rw [hrw]
              have hbeq : ((s.w.src.getF j0).ty == g.ty) = true := beq_iff_eq.2 hty
              simp only [World.setDst]
              rw [if_pos hbeq]
              by_cases hmlt : m < s.w.dst.vals.length
              · rw [if_pos hmlt]
                exact getF_setF_self s.w.dst m (s.w.src.getF j0) hmlt
              · rw [if_neg hmlt]
                show (SVal.setF s.w.dst m (s.w.src.getF j0)).getF m = s.w.dst.getF m
                rw [setF_out_of_range s.w.dst m (s.w.src.getF j0) hmlt]
            · have hres := ihset m g j sf hm2 hgad hlook hsfad hsfig (by
                show ((World.setDst s.w i0 _).src.getF j).ty = g.ty
                rw [hsrc2]
                exact hty)
              rw [hres]
              have hmne : m ≠ i0 := by
                intro hcontra
                subst hcontra
                exact hnotrest g hm2
              simp only [hsrc2, World.setDst]
              have hlen2 : (SVal.setF s.w.dst i0 (if (s.w.src.getF j0).ty == g0.ty
                  then s.w.src.getF j0 else s.w.dst.getF i0)).vals.length =
                  s.w.dst.vals.length := setF_length _ _ _
              rw [hlen2]
              by_cases hmlt : m < s.w.dst.vals.length
              · rw [if_pos hmlt, if_pos hmlt]
              · rw [if_neg hmlt, if_neg hmlt]
                exact getF_setF_ne s.w.dst i0 m _ hmne
          · intro m hcond
            by_cases hmeq : m = i0
            · subst hmeq
              have hhead := hcond g0 (List.mem_cons_self _ _) hAD j0 sf0 hfind
              rcases hhead with hx | hx | hx
              · rw [hx] at hsfa; cases hsfa
              · rw [hx] at hsfi; cases hsfi
              · have hbeq : ((s.w.src.getF j0).ty == g0.ty) = false := by
                  cases hb : (s.w.src.getF j0).ty == g0.ty
                  · rfl
                  · exact absurd (beq_iff_eq.1 hb) hx
                have hrw := ihun m (fun g2 hg2 => absurd hg2 (hnotrest g2))
                rw [hrw]
                simp only [World.setDst]
                rw [if_neg (by simp [hbeq])]
                exact getF_setF_refl s.w.dst m m
            · have hrw := ihun m (fun g2 hg2 hg2ad j sf hlook =>
                (by
                  have := hcond g2 (List.mem_cons_of_mem _ hg2) hg2ad j sf hlook
                  simpa [hsrc2] using this))
              rw [hrw]
              simp only [World.setDst]
              by_cases hb : ((s.w.src.getF j0).ty == g0.ty) = true
              · rw [if_pos hb]
                exact getF_setF_ne s.w.dst i0 m _ hmeq
              · rw [if_neg hb]
                exact getF_setF_refl s.w.dst i0 m

theorem adLookup_of_byName (td : SType) (k : String) (r : Nat × FieldInfo)
    (h : fieldsByName td k = some r) : adLookup td false k = some r := by
  unfold adLookup
  simp [h]

theorem unmarshalLoop_cons_apply (a : Adapter) (td : SType) (k : String) (raw v : Value)
    (rest : List (String × Value)) (w : World) (dstSet : List String)
    (i : Nat) (fi : FieldInfo)
    (hlook : adLookup td a.options.CaseInsensitiveAdditionalData k = some (i, fi))
    (hset : fi.canSet = true) (hig : fi.ignore = false)
    (hpol : (a.options.OverwritePolicy == .PreferFields && dstSet.contains fi.name) = false)
    (hconv : a.converters.global fi.name = none)
    (hdec : decodeAs fi.ty raw = some v)
    (hval : runValidators a v fi.name emptyStructTy td = none) :
    unmarshalLoop a td ((k, raw) :: rest) w dstSet =
      unmarshalLoop a td rest (w.setDst i v) (insertS fi.name dstSet) := by
  rw [unmarshalLoop]
  simp only [hlook, hset, hig, Bool.not_true, Bool.false_or, Bool.false_eq_true, if_false,
    hpol, hconv, hdec, hval]

theorem unmarshalLoop_empty_reg (a : Adapter) (hc : a.converters = ConvRegistry.empty)
    (hv : a.validators = ValRegistry.empty)
    (hci : a.options.CaseInsensitiveAdditionalData = false) (td : SType) :
    ∀ (kvs : List (String × Value)) (w : World) (dstSet : List String),
      ((kvs.map Prod.fst).Nodup) →
      (∀ p ∈ kvs, ∃ jf : Nat × FieldInfo, fieldsByName td p.1 = some jf ∧
        jf.2.canSet = true ∧ jf.2.ignore = false ∧ (p.2).ty = jf.2.ty ∧
        dstSet.contains p.1 = false) →
      (unmarshalLoop a td kvs w dstSet).2 = none ∧
      ((unmarshalLoop a td kvs w dstSet).1).1.src = w.src ∧
      ((unmarshalLoop a td kvs w dstSet).1).1.dst.vals.length = w.dst.vals.length ∧
      (∀ k v jf, (k, v) ∈ kvs → fieldsByName td k = some jf →
        jf.1 < w.dst.vals.length →
        ((unmarshalLoop a td kvs w dstSet).1).1.dst.getF jf.1 = v) ∧
      (∀ m, (∀ k v, (k, v) ∈ kvs → ∀ jf, fieldsByName td k = some jf → jf.1 ≠ m) →
        ((unmarshalLoop a td kvs w dstSet).1).1.dst.getF m = w.dst.getF m) := by
  intro kvs
  induction kvs with
  | nil =>
    intro w dstSet _ _
    refine ⟨rfl, rfl, rfl, ?_, ?_⟩
    · intro k v jf hm
      cases hm
    · intro m _
      rfl
  | cons p0 rest ih =>
    intro w dstSet hnd hkeys
    obtain ⟨k, raw⟩ := p0
    obtain ⟨⟨i, fi⟩, hfind0, hset0, hig0, hty0, hcont0⟩ :=
      hkeys (k, raw) (List.mem_cons_self _ _)
    have hfind : fieldsByName td k = some (i, fi) := hfind0
    have hset : fi.canSet = true := hset0
    have hig : fi.ignore = false := hig0
    have hty : raw.ty = fi.ty := hty0
    have hcont : dstSet.contains k = false := hcont0
    have hname : fi.name = k := fieldsByName_name td k i fi hfind
    rw [List.map_cons, List.nodup_cons] at hnd
    obtain ⟨hknotin, hndrest⟩ := hnd
    have hlook : adLookup td a.options.CaseInsensitiveAdditionalData k = some (i, fi) := by
      rw [hci]
      exact adLookup_of_byName td k (i, fi) hfind
    have hpol : (a.options.OverwritePolicy == .PreferFields &&
        dstSet.contains fi.name) = false := by
      rw [hname, hcont]
      simp
    have hconv : a.converters.global fi.name = none := by
      rw [hc]
      rfl
    have hdec : decodeAs fi.ty raw = some raw := by
      unfold decodeAs
      rw [if_pos (beq_iff_eq.2 hty)]
    have hval : runValidators a raw fi.name emptyStructTy td = none :=
      runValidators_empty a hv raw fi.name emptyStructTy td
    rw [unmarshalLoop_cons_apply a td k raw raw rest w dstSet i fi hlook hset hig hpol
      hconv hdec hval]
    have hkeysrest : ∀ p ∈ rest, ∃ jf : Nat × FieldInfo, fieldsByName td p.1 = some jf ∧
        jf.2.canSet = true ∧ jf.2.ignore = false ∧ (p.2).ty = jf.2.ty ∧
        (insertS fi.name dstSet).contains p.1 = false := by
      intro p hp
      obtain ⟨jf, h1, h2, h3, h4, h5⟩ := hkeys p (List.mem_cons_of_mem _ hp)
      refine ⟨jf, h1, h2, h3, h4, ?_⟩
      cases hcc : (insertS fi.name dstSet).contains p.1
      · rfl
      · exfalso
        rcases (insertS_contains _ _ _).1 hcc with hx | hx
        · rw [h5] at hx
          cases hx
        · rw [hname] at hx
          apply hknotin
          rw [← hx]
          exact List.mem_map.2 ⟨p, hp, rfl⟩
    obtain ⟨ihe, ihs, ihl, ihsetc, ihun⟩ :=
      ih (w.setDst i raw) (insertS fi.name dstSet) hndrest hkeysrest
    have hidx : ∀ k3 v3, (k3, v3) ∈ rest → ∀ jf3, fieldsByName td k3 = some jf3 →
        jf3.1 ≠ i := by
      intro k3 v3 hm3 jf3 hfind3 hcontra
      have hmem3 := fieldsByName_mem td k3 jf3.1 jf3.2 (by
        cases jf3
        exact hfind3)
      have hmemi := fieldsByName_mem td k i fi hfind
      rw [hcontra] at hmem3
      have hff := enumF_functional 0 td.fields i jf3.2 fi hmem3 hmemi
      have hk3 : k3 = k := by
        have h1 := fieldsByName_name td k3 jf3.1 jf3.2 (by cases jf3; exact hfind3)
        rw [← h1, hff, hname]
      apply hknotin
      rw [← hk3]
      exact List.mem_map.2 ⟨(k3, v3), hm3, rfl⟩
    refine ⟨ihe, ?_, ?_, ?_, ?_⟩
    · rw [ihs]
      rfl
    · rw [ihl]
      exact setF_length _ _ _
    · intro k2 v2 jf2 hm2 hfind2 hlt2
      rcases List.mem_cons.1 hm2 with heq | hm3
      · injection heq with h1 h2
        subst h1
        subst h2
        rw [hfind2] at hfind
        injection hfind with hfind
        subst hfind
        have hrw := ihun i (fun k3 v3 hm3 jf3 hfind3 => hidx k3 v3 hm3 jf3 hfind3)
        rw [hrw]
        show (SVal.setF w.dst i v2).getF i = v2
        exact getF_setF_self w.dst i v2 hlt2
      · have := ihsetc k2 v2 jf2 hm3 hfind2 (by
          show jf2.1 < (World.setDst w i raw).dst.vals.length
          rw [show (World.setDst w i raw).dst = SVal.setF w.dst i raw from rfl,
            setF_length]
          exact hlt2)
        exact this
    · intro m hnone
      have hrw := ihun m (fun k3 v3 hm3 jf3 hfind3 =>
        hnone k3 v3 (List.mem_cons_of_mem _ hm3) jf3 hfind3)
      rw [hrw]
      have hmne : m ≠ i := by
        intro hcontra
        exact hnone k raw (List.mem_cons_self _ _) (i, fi) hfind (by rw [hcontra])
      show (SVal.setF w.dst i raw).getF m = w.dst.getF m
      exact getF_setF_ne w.dst i m raw hmne

theorem enumF_fst_nodup : ∀ (n : Nat) (l : List FieldInfo),
    ((enumF n l).map Prod.fst).Nodup := by
  intro n l
  induction l generalizing n with
  | nil => simp [enumF]
  | cons hd tl ih =>
    simp only [enumF, List.map_cons, List.nodup_cons]
    refine ⟨?_, ih (n + 1)⟩
    intro hmem
    obtain ⟨p, hp, hpn⟩ := List.mem_map.1 hmem
    obtain ⟨i, f⟩ := p
    have hb := mem_enumF_bound (n + 1) tl i f hp
    simp at hpn
    omega

theorem enum_names_nodup (t : SType) (hnd : (t.fields.map FieldInfo.name).Nodup) :
    ((enumFields t).map (fun p => p.2.name)).Nodup := by
  have hcomp : (enumFields t).map (fun p : Nat × FieldInfo => p.2.name) =
      ((enumFields t).map Prod.snd).map FieldInfo.name := by
    rw [List.map_map]
    rfl
  have hsnd : (enumFields t).map Prod.snd = t.fields := enumF_map_snd 0 t.fields
  rw [hcomp, hsnd]
  exact hnd

theorem enum_name_inj (t : SType) (hnd : (t.fields.map FieldInfo.name).Nodup)
    (x y : Nat × FieldInfo) (hx : x ∈ enumFields t) (hy : y ∈ enumFields t)
    (hn : x.2.name = y.2.name) : x = y :=
  List.inj_on_of_nodup_map (enum_names_nodup t hnd) hx hy hn

theorem mem_field_enum : ∀ (n : Nat) (l : List FieldInfo) (f : FieldInfo), f ∈ l →
    ∃ i, (i, f) ∈ enumF n l := by
  intro n l
  induction l generalizing n with
  | nil => intro f h; cases h
  | cons g rest ih =>
    intro f h
    rcases List.mem_cons.1 h with rfl | htail
    · exact ⟨n, List.mem_cons_self _ _⟩
    · obtain ⟨i, hi⟩ := ih (n + 1) f htail
      exact ⟨i, List.mem_cons_of_mem _ hi⟩

theorem list_getD_map_zero : ∀ (l : List FieldInfo) (m : Nat), m < l.length →
    (l.map (fun f => zeroOf f.ty)).getD m Value.vAbsent =
      zeroOf ((l.getD m dfltField).ty) := by
  intro l
  induction l with
  | nil => intro m h; exact absurd h (Nat.not_lt_zero m)
  | cons f rest ih =>
    intro m h
    cases m with
    | zero => rfl
    | succ m2 => exact ih m2 (Nat.lt_of_succ_lt_succ h)

theorem zeroVal_length (t : SType) : (zeroVal t).vals.length = t.fields.length := by
  unfold zeroVal
  exact List.length_map _ _

theorem zeroVal_getF (t : SType) (m : Nat) (f : FieldInfo)
    (hm : (m, f) ∈ enumFields t) : (zeroVal t).getF m = zeroOf f.ty := by
  have hb := mem_enumF_bound 0 t.fields m f hm
  have hgd := mem_enumF_getD 0 t.fields m f hm
  rw [Nat.sub_zero] at hgd
  show (t.fields.map (fun f => zeroOf f.ty)).getD m Value.vAbsent = zeroOf f.ty
  rw [list_getD_map_zero t.fields m (by omega), hgd]

theorem adaptStructW_result (a : Adapter) (dt st : SType) (w0 : World)
    (hAD : ((adFind st).isSome || (adFind dt).isSome) = true)
    (s1 : AdaptState)
    (hloop : adaptFieldsLoop a dt st true (enumFields dt) ⟨w0, [], []⟩ = (s1, none))
    (s2 : AdaptState)
    (hum : unmarshalStep a dt st true s1 = (s2, none)) :
    adaptStructW a dt st w0 = (marshalStep a dt st s2, none) := by
  simp only [adaptStructW]
  rw [hAD]
  simp only [hloop, hum]

/-! ### Claim theorems -/

/-- C1: during direct field resolution the effective converter for a
destination field is resolved by the fixed precedence pair-scope over
destination-scope over global — `adaptField` dispatches on exactly the
converter that the precedence-ordered `resolveConverter` yields (the
pair-scoped one when it exists, else the destination-scoped one, else the
global one, else the direct-copy fallback) — and `runValidators` applies
exactly the validator the same precedence order yields. -/
theorem adaptField_converter_and_validator_precedence (a : Adapter) (dstTy : Ty)
    (dstCur srcV v : Value) (n : String) (st dt : SType) :
    adaptField a dstTy dstCur srcV true n st dt =
      (match resolveConverter a.converters st dt n with
       | some fn => convThenValidate a dstTy fn srcV n st dt
       | none => directCopy a dstTy dstCur srcV n st dt) ∧
    runValidators a v n st dt =
      (match resolveValidator a.validators st dt n with
       | some fn => fn v
       | none => none) :=
  ⟨adaptField_eq_resolve a dstTy dstCur srcV n st dt,
   runValidators_eq_resolve a v n st dt⟩

/-- C2: a field name present both as a directly-matched source member
(value `v`) and as a key in the source overflow container (value `w`)
keeps the direct value under the default prefer-fields policy and takes
the overflow value under the prefer-overflow policy. -/
theorem overwrite_policy_direct_vs_overflow (v w : String) :
    adaptStruct (adapterWithPolicy .PreferFields) owDstT owSrcT ⟨[.vStr ""]⟩
        ⟨[.vStr v, .vObj [("Name", .vStr w)]]⟩ = .ok ⟨[.vStr v]⟩ ∧
    adaptStruct (adapterWithPolicy .PreferAdditionalData) owDstT owSrcT ⟨[.vStr ""]⟩
        ⟨[.vStr v, .vObj [("Name", .vStr w)]]⟩ = .ok ⟨[.vStr w]⟩ :=
  ⟨rfl, rfl⟩

/-- C8: `Into` rejects any call where either argument is not a non-nil
pointer to a struct with an invalid-argument error, before any adaptation;
two non-nil struct pointers are handed to the adaptation proper. -/
theorem into_argument_validation (a : Adapter) :
    (∀ d s : GoArg,
      ((∀ t v, d ≠ .goPtrStruct t v) ∨ (∀ t v, s ≠ .goPtrStruct t v)) →
      ∃ e, Into a d s = .error e) ∧
    (∀ (dt st : SType) (dv sv : SVal),
      Into a (.goPtrStruct dt dv) (.goPtrStruct st sv) = adaptStruct a dt st dv sv) := by
  constructor
  · intro d s h
    cases d <;> cases s <;>
      first
        | exact ⟨_, rfl⟩
        | (exfalso
           rcases h with h | h
           · exact h _ _ rfl
           · exact h _ _ rfl)
  · intro dt st dv sv
    rfl

/-- Witness for C8 at concrete arguments: a nil destination is rejected,
and a pair of struct pointers reaches the adaptation. -/
theorem into_argument_validation_witness :
    (∃ e, Into Adapter.new GoArg.goNil (GoArg.goPtrStruct owSrcT ⟨[]⟩) = .error e) ∧
    Into Adapter.new (GoArg.goPtrStruct owDstT ⟨[.vStr ""]⟩)
        (GoArg.goPtrStruct owSrcT ⟨[.vStr "x", .vAbsent]⟩) =
      adaptStruct Adapter.new owDstT owSrcT ⟨[.vStr ""]⟩ ⟨[.vStr "x", .vAbsent]⟩ :=
  ⟨(into_argument_validation Adapter.new).1 _ _
      (Or.inl (fun _ _ h => GoArg.noConfusion h)),
   (into_argument_validation Adapter.new).2 owDstT owSrcT _ _⟩

/-- C3: in overflow marshal with the default include-zero-values off, no
zero-valued unconsumed member reaches the marshaled collection; an empty
collection — in particular an all-skipped or all-zero source — produces
the explicit absent container value, and an encoded empty object is never
produced; with include-zero-values on, an unconsumed zero-valued member
does appear in the collection with its value. -/
theorem overflow_marshal_zero_handling (a : Adapter) (st : SType) (srcV : SVal)
    (processed : List String) :
    (a.options.IncludeZeroValues = false →
      ∀ k val, (k, val) ∈ collectRemaining a srcV processed (enumFields st) →
        val.isZero = false) ∧
    (collectRemaining a srcV processed (enumFields st) = [] →
      marshalRemainingFields a st srcV processed = Value.vAbsent) ∧
    (marshalRemainingFields a st srcV processed ≠ Value.vObj []) ∧
    ((∀ p ∈ enumFields st, p.2.isAdditionalData = true ∨ p.2.ignore = true ∨
        processed.contains p.2.name = true ∨
        (a.options.IncludeZeroValues = false ∧ (srcV.getF p.1).isZero = true)) →
      marshalRemainingFields a st srcV processed = Value.vAbsent) ∧
    (a.options.IncludeZeroValues = true →
      ∀ i sf, (i, sf) ∈ enumFields st →
        ((enumFields st).map (fun p => p.2.name)).Nodup →
        sf.isAdditionalData = false → sf.ignore = false →
        processed.contains sf.name = false →
        (sf.name, srcV.getF i) ∈ collectRemaining a srcV processed (enumFields st)) := by
  refine ⟨fun hz => collectRemaining_no_zero a hz srcV processed _, ?_, ?_, ?_, ?_⟩
  · intro h
    unfold marshalRemainingFields
    rw [h]
    rfl
  · intro hcontra
    unfold marshalRemainingFields at hcontra
    split at hcontra
    · cases hcontra
    · rename_i hne
      injection hcontra with h2
      rw [h2] at hne
      simp at hne
  · intro h
    unfold marshalRemainingFields
    rw [collectRemaining_empty a srcV processed _ h]
    rfl
  · intro hz i sf hm hnd hAD hig hpr
    exact collectRemaining_mem_of a srcV processed _ i sf hm hnd hAD hig hpr (Or.inl hz)

/-- Witness for C3: the all-zero two-field source with default options
marshals to the absent container, and with include-zero-values on its
zero `Age` member appears in the collection. -/
theorem overflow_marshal_zero_handling_witness :
    (∀ p ∈ enumFields zeroSrcT, p.2.isAdditionalData = true ∨ p.2.ignore = true ∨
      List.contains [] p.2.name = true ∨
      (Adapter.new.options.IncludeZeroValues = false ∧ (zeroSrcV.getF p.1).isZero = true)) ∧
    marshalRemainingFields Adapter.new zeroSrcT zeroSrcV [] = Value.vAbsent ∧
    (adapterWithOptions { IncludeZeroValues := true }).options.IncludeZeroValues = true ∧
    (0, intField "Age") ∈ enumFields zeroSrcT ∧
    ((enumFields zeroSrcT).map (fun p => p.2.name)).Nodup ∧
    ((intField "Age").name, zeroSrcV.getF 0) ∈
      collectRemaining (adapterWithOptions { IncludeZeroValues := true }) zeroSrcV []
        (enumFields zeroSrcT) :=
  ⟨by decide,
   (overflow_marshal_zero_handling Adapter.new zeroSrcT zeroSrcV []).2.2.2.1 (by decide),
   rfl, by decide, by decide,
   (overflow_marshal_zero_handling (adapterWithOptions { IncludeZeroValues := true })
      zeroSrcT zeroSrcV []).2.2.2.2 rfl 0 (intField "Age") (by decide) (by decide)
      rfl rfl rfl⟩

/-- C7: a converter resolved for a destination field behaves as follows —
a returned error aborts the field adaptation with that error, which the
adaptation loop wraps with the field name and propagates, aborting the
whole adaptation; a nil result sets the destination member to the zero
value of its type without error; a non-nil result whose type is not
assignable to the member's type aborts with a type-mismatch error. -/
theorem converter_result_handling (a : Adapter) (dstTy : Ty) (dstCur srcV : Value)
    (n : String) (st dt : SType) (fn : Conv)
    (hres : resolveConverter a.converters st dt n = some fn) :
    (∀ e, fn srcV = .error e → adaptField a dstTy dstCur srcV true n st dt = .error e) ∧
    (fn srcV = .ok none → runValidators a (zeroOf dstTy) n st dt = none →
      adaptField a dstTy dstCur srcV true n st dt = .ok (zeroOf dstTy)) ∧
    (∀ cv, fn srcV = .ok (some cv) → cv.ty.assignableTo dstTy = false →
      adaptField a dstTy dstCur srcV true n st dt =
        .error ("converter returned wrong type for field " ++ n)) ∧
    (∀ (dt2 st2 : SType) (hasAD : Bool) (i : Nat) (df : FieldInfo)
        (rest : List (Nat × FieldInfo)) (s : AdaptState) (j : Nat) (sf : FieldInfo)
        (e : String),
      (!df.canSet || df.isAdditionalData || df.ignore) = false →
      findSrcIdx st2 df = some (j, sf) →
      (sf.isAdditionalData || sf.ignore) = false →
      adaptField a df.ty (s.w.dst.getF i) (s.w.src.getF j) df.canSet df.name st2 dt2 =
        .error e →
      adaptFieldsLoop a dt2 st2 hasAD ((i, df) :: rest) s =
        (s, some ("adapting field " ++ df.name ++ ": " ++ e))) := by
  refine ⟨?_, ?_, ?_, ?_⟩
  · intro e he
    rw [adaptField_eq_resolve, hres]
    simp only [convThenValidate, applyConverter, he]
  · intro hnil hval
    rw [adaptField_eq_resolve, hres]
    simp only [convThenValidate, applyConverter, hnil, hval]
  · intro cv hcv hassign
    rw [adaptField_eq_resolve, hres]
    simp only [convThenValidate, applyConverter, hcv, hassign, Bool.false_eq_true, if_false]
  · intro dt2 st2 hasAD i df rest s j sf e hskip hfind hsf herr
    rw [adaptFieldsLoop]
    simp only [hskip, hfind, hsf, herr, Bool.false_eq_true, if_false]

/-- Witness for C7 with three concrete global converters for `Name`
(failing, wrong-typed, nil) applied to a string destination member, and
the loop-level abort with the wrapped field name. -/
theorem converter_result_handling_witness :
    resolveConverter (withGlobalNameConv failConv).converters owSrcT owDstT "Name" =
      some failConv ∧
    adaptField (withGlobalNameConv failConv) .tStr (.vStr "") (.vStr "x") true "Name"
      owSrcT owDstT = .error "boom" ∧
    adaptField (withGlobalNameConv nilConv) .tStr (.vStr "") (.vStr "x") true "Name"
      owSrcT owDstT = .ok (zeroOf .tStr) ∧
    adaptField (withGlobalNameConv badTypeConv) .tStr (.vStr "") (.vStr "x") true "Name"
      owSrcT owDstT = .error ("converter returned wrong type for field " ++ "Name") ∧
    adaptFieldsLoop (withGlobalNameConv failConv) owDstT owSrcT true [(0, strField "Name")]
        ⟨⟨⟨[.vStr ""]⟩, ⟨[.vStr "x", .vAbsent]⟩⟩, [], []⟩ =
      (⟨⟨⟨[.vStr ""]⟩, ⟨[.vStr "x", .vAbsent]⟩⟩, [], []⟩,
        some ("adapting field " ++ "Name" ++ ": " ++ "boom")) :=
  ⟨rfl,
   (converter_result_handling (withGlobalNameConv failConv) .tStr (.vStr "") (.vStr "x")
      "Name" owSrcT owDstT failConv rfl).1 "boom" rfl,
   (converter_result_handling (withGlobalNameConv nilConv) .tStr (.vStr "") (.vStr "x")
      "Name" owSrcT owDstT nilConv rfl).2.1 rfl rfl,
   (converter_result_handling (withGlobalNameConv badTypeConv) .tStr (.vStr "") (.vStr "x")
      "Name" owSrcT owDstT badTypeConv rfl).2.2.1 (.vInt 1) rfl rfl,
   (converter_result_handling (withGlobalNameConv failConv) .tStr (.vStr "") (.vStr "x")
      "Name" owSrcT owDstT failConv rfl).2.2.2 owDstT owSrcT true 0 (strField "Name") []
      ⟨⟨⟨[.vStr ""]⟩, ⟨[.vStr "x", .vAbsent]⟩⟩, [], []⟩ 0 (strField "Name") "boom"
      rfl rfl rfl rfl⟩

/-- C4 counterexample: with case-insensitive matching enabled, a
destination member `Name` and a source member `NAME` (no aliases) are NOT
matched during direct field resolution — the destination keeps its initial
empty value instead of receiving the source's value, so the claimed
case-insensitive fallback of direct resolution does not exist. -/
theorem direct_resolution_no_ci_counterexample :
    adaptStruct (adapterWithOptions { CaseInsensitiveAdditionalData := true })
        ciDstT ciSrcT ⟨[.vStr ""]⟩ ⟨[.vStr "Jane"]⟩ = .ok ⟨[.vStr ""]⟩ ∧
    Value.vStr "" ≠ Value.vStr "Jane" :=
  ⟨rfl, by intro h; injection h with h2; exact absurd h2 (by decide)⟩

/-- C4 amended: during direct field resolution the source member is
located by exact name first, else by alias when the destination member has
one; when no match is found the destination member is skipped entirely
with no error; and the case-insensitivity option has no effect whatsoever
on the direct-resolution loop (it applies only to overflow keys). -/
theorem direct_resolution_matching_order (a : Adapter) (dt st : SType)
    (hasAD : Bool) (i : Nat) (df : FieldInfo) (rest : List (Nat × FieldInfo))
    (s : AdaptState)
    (h1 : df.canSet = true) (h2 : df.isAdditionalData = false) (h3 : df.ignore = false) :
    (∀ r, fieldsByName st df.name = some r → findSrcIdx st df = some r) ∧
    (fieldsByName st df.name = none →
      findSrcIdx st df =
        if df.jsonName != "" then fieldsByJSONName st df.jsonName else none) ∧
    (findSrcIdx st df = none →
      adaptFieldsLoop a dt st hasAD ((i, df) :: rest) s =
        adaptFieldsLoop a dt st hasAD rest s) ∧
    (∀ (b : Bool) (L : List (Nat × FieldInfo)) (s2 : AdaptState),
      adaptFieldsLoop (setCI a b) dt st hasAD L s2 = adaptFieldsLoop a dt st hasAD L s2) := by
  refine ⟨?_, ?_, ?_, fun b => adaptFieldsLoop_setCI a b dt st hasAD⟩
  · intro r hr
    unfold findSrcIdx
    rw [hr]
  · intro hr
    unfold findSrcIdx
    rw [hr]
  · intro hfind
    rw [adaptFieldsLoop]
    simp [h1, h2, h3, hfind]

/-- Witness for the amended C4 at a concrete destination member: the
exact-name match is returned, and an unmatched member is skipped without
error. -/
theorem direct_resolution_matching_order_witness :
    (strField "Name").canSet = true ∧
    (strField "Name").isAdditionalData = false ∧
    (strField "Name").ignore = false ∧
    ((∀ r, fieldsByName ciSrcT (strField "Name").name = some r →
        findSrcIdx ciSrcT (strField "Name") = some r) ∧
      (fieldsByName ciSrcT (strField "Name").name = none →
        findSrcIdx ciSrcT (strField "Name") =
          if (strField "Name").jsonName != "" then
            fieldsByJSONName ciSrcT (strField "Name").jsonName
          else none) ∧
      (findSrcIdx ciSrcT (strField "Name") = none →
        adaptFieldsLoop Adapter.new ciDstT ciSrcT false [(0, strField "Name")]
            ⟨⟨⟨[.vStr ""]⟩, ⟨[.vStr "Jane"]⟩⟩, [], []⟩ =
          adaptFieldsLoop Adapter.new ciDstT ciSrcT false []
            ⟨⟨⟨[.vStr ""]⟩, ⟨[.vStr "Jane"]⟩⟩, [], []⟩) ∧
      (∀ (b : Bool) (L : List (Nat × FieldInfo)) (s2 : AdaptState),
        adaptFieldsLoop (setCI Adapter.new b) ciDstT ciSrcT false L s2 =
          adaptFieldsLoop Adapter.new ciDstT ciSrcT false L s2)) :=
  ⟨rfl, rfl, rfl,
   direct_resolution_matching_order Adapter.new ciDstT ciSrcT false 0 (strField "Name")
     [] ⟨⟨⟨[.vStr ""]⟩, ⟨[.vStr "Jane"]⟩⟩, [], []⟩ rfl rfl rfl⟩

/-- C5 counterexample: with a converter registered ONLY at pair scope for
the field `Age`, overflow unmarshal does not invoke it — the raw value 7
is decoded by the generic per-type fallback instead of the converter's 99,
so overflow-unmarshal converter resolution does not follow the three-scope
precedence. -/
theorem overflow_converter_scope_counterexample :
    adaptStruct pairOnlyAdapter scDstT scSrcT ⟨[.vInt 0]⟩
        ⟨[.vObj [("Age", .vInt 7)]]⟩ = .ok ⟨[.vInt 7]⟩ ∧
    pairOnlyAdapter.converters.byPair scSrcT scDstT "Age" = some const99 ∧
    const99 (genericDecode (.vInt 7)) = .ok (some (.vInt 99)) ∧
    Value.vInt 7 ≠ Value.vInt 99 :=
  ⟨rfl, rfl, rfl, by intro h; injection h with h2; exact absurd h2 (by decide)⟩

/-- C5 amended: overflow unmarshal resolves converters from the GLOBAL
scope only — destination- and pair-scoped registrations are invisible to
it — and when a global converter is registered for the resolved member,
the raw value is decoded generically and handed to the converter: on
success (assignable result, passing validator) the result is assigned; on
a converter error, nil result or unassignable result that single key is
skipped, and the typed-decode fallback is never attempted regardless of
the converter's outcome. -/
theorem overflow_converter_global_scope_only (a : Adapter) (dt : SType)
    (k : String) (raw : Value) (rest : List (String × Value)) (w : World)
    (dstSet : List String) (i : Nat) (fi : FieldInfo) (fn : Conv)
    (hlook : adLookup dt a.options.CaseInsensitiveAdditionalData k = some (i, fi))
    (hset : fi.canSet = true) (hig : fi.ignore = false)
    (hpol : (a.options.OverwritePolicy == .PreferFields && dstSet.contains fi.name) = false)
    (hfn : a.converters.global fi.name = some fn) :
    (∀ byDst byPair (kvs : List (String × Value)) (w2 : World) (set2 : List String),
      unmarshalLoop (setScopedConverters a byDst byPair) dt kvs w2 set2 =
        unmarshalLoop a dt kvs w2 set2) ∧
    (∀ e, fn (genericDecode raw) = .error e →
      unmarshalLoop a dt ((k, raw) :: rest) w dstSet =
        unmarshalLoop a dt rest w dstSet) ∧
    (fn (genericDecode raw) = .ok none →
      unmarshalLoop a dt ((k, raw) :: rest) w dstSet =
        unmarshalLoop a dt rest w dstSet) ∧
    (∀ cv, fn (genericDecode raw) = .ok (some cv) → cv.ty.assignableTo fi.ty = false →
      unmarshalLoop a dt ((k, raw) :: rest) w dstSet =
        unmarshalLoop a dt rest w dstSet) ∧
    (∀ cv, fn (genericDecode raw) = .ok (some cv) → cv.ty.assignableTo fi.ty = true →
      runValidators a cv fi.name emptyStructTy dt = none →
      unmarshalLoop a dt ((k, raw) :: rest) w dstSet =
        unmarshalLoop a dt rest (w.setDst i cv) (insertS fi.name dstSet)) := by
  refine ⟨fun byDst byPair => unmarshalLoop_scoped_converters_ignored a byDst byPair dt,
    ?_, ?_, ?_, ?_⟩
  all_goals
    intros
    rw [unmarshalLoop]
    simp_all [hlook, hset, hig, hpol, hfn]

/-- Witness for the amended C5 with a concrete global converter for `Age`
and the raw overflow value 7. -/
theorem overflow_converter_global_scope_only_witness :
    adLookup scDstT globalAgeAdapter.options.CaseInsensitiveAdditionalData "Age" =
      some (0, intField "Age") ∧
    (intField "Age").canSet = true ∧
    (intField "Age").ignore = false ∧
    (globalAgeAdapter.options.OverwritePolicy == .PreferFields &&
      List.contains [] (intField "Age").name) = false ∧
    globalAgeAdapter.converters.global (intField "Age").name = some const99 ∧
    (∀ cv, const99 (genericDecode (.vInt 7)) = .ok (some cv) →
      cv.ty.assignableTo (intField "Age").ty = true →
      runValidators globalAgeAdapter cv (intField "Age").name emptyStructTy scDstT = none →
      unmarshalLoop globalAgeAdapter scDstT [("Age", .vInt 7)] ⟨⟨[.vInt 0]⟩, ⟨[]⟩⟩ [] =
        unmarshalLoop globalAgeAdapter scDstT []
          (World.setDst ⟨⟨[.vInt 0]⟩, ⟨[]⟩⟩ 0 cv) (insertS (intField "Age").name [])) :=
  ⟨rfl, rfl, rfl, rfl, rfl,
   (overflow_converter_global_scope_only globalAgeAdapter scDstT "Age" (.vInt 7) []
      ⟨⟨[.vInt 0]⟩, ⟨[]⟩⟩ [] 0 (intField "Age") const99 rfl rfl rfl rfl rfl).2.2.2.2⟩

/-- C6 counterexample: a well-formed overflow container whose key `Age`
decodes successfully but is then rejected by a registered validator makes
the whole adapt call fail — so a structurally invalid container is not the
only overflow-unmarshal condition that aborts the call. -/
theorem overflow_validator_abort_counterexample :
    adaptStruct rejectAge scDstT scSrcT ⟨[.vInt 0]⟩ ⟨[.vObj [("Age", .vInt 5)]]⟩ =
      .error "unmarshaling AdditionalData: Age rejected" :=
  rfl

/-- C6 amended: overflow-unmarshal failures are contained per key —
absent any registered validators the per-key loop never produces an error
(converter errors, unassignable results and decode failures merely skip
their single key, as the skip equation states for the typed-decode case) —
and the conditions that abort the whole call are a structurally invalid
overflow container and a validator error on a successfully decoded and
assigned key. -/
theorem overflow_unmarshal_containment (a : Adapter) (dt : SType)
    (k : String) (raw : Value) (rest : List (String × Value)) (w : World)
    (dstSet : List String) (i : Nat) (fi : FieldInfo)
    (hlook : adLookup dt a.options.CaseInsensitiveAdditionalData k = some (i, fi))
    (hset : fi.canSet = true) (hig : fi.ignore = false)
    (hpol : (a.options.OverwritePolicy == .PreferFields && dstSet.contains fi.name) = false)
    (hfn : a.converters.global fi.name = none) :
    (∀ (a2 : Adapter), a2.validators = ValRegistry.empty →
      ∀ (kvs : List (String × Value)) (w2 : World) (set2 : List String),
        (unmarshalLoop a2 dt kvs w2 set2).2 = none) ∧
    (∀ (w2 : World) (set2 : List String),
      unmarshalAdditionalData a dt .vMalformed w2 set2 =
        ((w2, set2), some "invalid character in AdditionalData JSON")) ∧
    (decodeAs fi.ty raw = none →
      unmarshalLoop a dt ((k, raw) :: rest) w dstSet =
        unmarshalLoop a dt rest w dstSet) ∧
    (∀ v e, decodeAs fi.ty raw = some v →
      runValidators a v fi.name emptyStructTy dt = some e →
      unmarshalLoop a dt ((k, raw) :: rest) w dstSet =
        ((w.setDst i v, dstSet), some e)) := by
  refine ⟨fun a2 hv2 => unmarshalLoop_no_error_without_validators a2 hv2 dt,
    fun w2 set2 => rfl, ?_, ?_⟩
  all_goals
    intros
    rw [unmarshalLoop]
    simp_all [hlook, hset, hig, hpol, hfn]

/-- Witness for the amended C6: the `rejectAge` adapter with key `Age`,
whose decode succeeds and whose validator rejects, at concrete inputs. -/
theorem overflow_unmarshal_containment_witness :
    adLookup scDstT rejectAge.options.CaseInsensitiveAdditionalData "Age" =
      some (0, intField "Age") ∧
    (intField "Age").canSet = true ∧
    (intField "Age").ignore = false ∧
    (rejectAge.options.OverwritePolicy == .PreferFields &&
      List.contains [] (intField "Age").name) = false ∧
    rejectAge.converters.global (intField "Age").name = none ∧
    (∀ v e, decodeAs (intField "Age").ty (.vInt 5) = some v →
      runValidators rejectAge v (intField "Age").name emptyStructTy scDstT = some e →
      unmarshalLoop rejectAge scDstT [("Age", .vInt 5)] ⟨⟨[.vInt 0]⟩, ⟨[]⟩⟩ [] =
        ((World.setDst ⟨⟨[.vInt 0]⟩, ⟨[]⟩⟩ 0 v, []), some e)) :=
  ⟨rfl, rfl, rfl, rfl, rfl,
   (overflow_unmarshal_containment rejectAge scDstT "Age" (.vInt 5) []
      ⟨⟨[.vInt 0]⟩, ⟨[]⟩⟩ [] 0 (intField "Age") rfl rfl rfl rfl rfl).2.2.2⟩

/-- C9: round-trip — a composite value whose every member is representable
in the destination type either as a same-named, same-typed direct member or
through the destination's overflow slot, adapted into a fresh destination
instance and back into a fresh source instance with no converters or
validators registered, is recovered field-for-field. -/
theorem adapt_round_trip (ta tb : SType) (va : SVal)
    (hA : ∀ f ∈ ta.fields, plainSrcField f)
    (hAnd : (ta.fields.map FieldInfo.name).Nodup)
    (hB : ∀ g ∈ tb.fields, plainDstField g)
    (hBnd : (tb.fields.map FieldInfo.name).Nodup)
    (hBAD : (adFind tb).isSome = true)
    (hrep : representable ta tb)
    (hwt : SVal.wellTyped ta va = true) :
    ∃ vb : SVal, adaptStruct Adapter.new tb ta (zeroVal tb) va = .ok vb ∧
      adaptStruct Adapter.new ta tb (zeroVal ta) vb = .ok va := by
  classical
  obtain ⟨⟨iAD, gAD⟩, hADfind⟩ : ∃ r, adFind tb = some r := by
    cases h : adFind tb
    · rw [h] at hBAD
      cases hBAD
    · exact ⟨_, rfl⟩
  obtain ⟨hADmem, hADis⟩ := adFind_mem tb iAD gAD hADfind
  have hADta : adFind ta = none := adFind_none ta (fun f hf => (hA f hf).2.1)
  have hvalen : va.vals.length = ta.fields.length := wellTyped_length ta va hwt
  have hpropsB : ∀ p ∈ enumFields tb,
      p.2.canSet = true ∧ p.2.ignore = false ∧ p.2.jsonName = "" := by
    intro p hp
    have h := hB p.2 (mem_enumF_field 0 tb.fields p.1 p.2 (by cases p; exact hp))
    exact ⟨h.1, h.2.1, h.2.2⟩
  have hpropsA : ∀ p ∈ enumFields ta,
      p.2.canSet = true ∧ p.2.ignore = false ∧ p.2.jsonName = "" := by
    intro p hp
    have h := hA p.2 (mem_enumF_field 0 ta.fields p.1 p.2 (by cases p; exact hp))
    exact ⟨h.1, h.2.2.1, h.2.2.2.1⟩
  -- phase 1: adapt va into a fresh tb instance
  obtain ⟨e1, s1src0, s1len0, s1proc0, s1dset0, s1set0, s1un0⟩ :=
    adaptFieldsLoop_empty_reg Adapter.new rfl rfl tb ta (enumFields tb)
      ⟨⟨zeroVal tb, va⟩, [], []⟩ hpropsB (enumF_fst_nodup 0 tb.fields)
  set s1 := (adaptFieldsLoop Adapter.new tb ta true (enumFields tb)
    ⟨⟨zeroVal tb, va⟩, [], []⟩).1 with hs1def
  have hloop1 : adaptFieldsLoop Adapter.new tb ta true (enumFields tb)
      ⟨⟨zeroVal tb, va⟩, [], []⟩ = (s1, none) := by
    rw [hs1def, ← e1]
  have hsrc1 : s1.w.src = va := s1src0
  have hs1len : s1.w.dst.vals.length = tb.fields.length := by
    rw [s1len0]
    exact zeroVal_length tb
  have hP1 : ∀ x, s1.processed.contains x = true ↔
      (∃ p ∈ enumFields tb, p.2.isAdditionalData = false ∧ p.2.name = x ∧
        (fieldsByName ta x).isSome = true) := by
    intro x
    rw [s1proc0 x]
    simp
  have s1set2 : ∀ mm gg jj sff, (mm, gg) ∈ enumFields tb → gg.isAdditionalData = false →
      fieldsByName ta gg.name = some (jj, sff) → sff.isAdditionalData = false →
      sff.ignore = false → (va.getF jj).ty = gg.ty → mm < tb.fields.length →
      s1.w.dst.getF mm = va.getF jj := by
    intro mm gg jj sff h1 h2 h3 h4 h5 h6 h7
    have h := s1set0 mm gg jj sff h1 h2 h3 h4 h5 h6
    rw [h, if_pos (by rw [zeroVal_length]; exact h7 :
      mm < (zeroVal tb).vals.length)]
  have s1un2 : ∀ mm, (∀ gg, (mm, gg) ∈ enumFields tb → gg.isAdditionalData = false →
      ∀ jj sff, fieldsByName ta gg.name = some (jj, sff) →
        sff.isAdditionalData = true ∨ sff.ignore = true ∨ (va.getF jj).ty ≠ gg.ty) →
      s1.w.dst.getF mm = (zeroVal tb).getF mm := fun mm h => s1un0 mm h
  have hum1 : unmarshalStep Adapter.new tb ta true s1 = (s1, none) := by
    unfold unmarshalStep
    rw [hADta]
  have hADexpr1 : ((adFind ta).isSome || (adFind tb).isSome) = true := by
    rw [hADta, hADfind]
    rfl
  have hw1 : adaptStructW Adapter.new tb ta ⟨zeroVal tb, va⟩ =
      (marshalStep Adapter.new tb ta s1, none) :=
    adaptStructW_result Adapter.new tb ta ⟨zeroVal tb, va⟩ hADexpr1 s1 hloop1 s1 hum1
  have hmar1 : marshalStep Adapter.new tb ta s1 =
      s1.w.setDst iAD (marshalRemainingFields Adapter.new ta s1.w.src s1.processed) := by
    unfold marshalStep
    simp only [hADfind]
    rw [if_neg (by decide)]
  set M := marshalRemainingFields Adapter.new ta va s1.processed with hMdef
  set vb := SVal.setF s1.w.dst iAD M with hvbdef
  have hphase1 : adaptStruct Adapter.new tb ta (zeroVal tb) va = .ok vb := by
    unfold adaptStruct
    rw [hw1, hmar1]
    show Except.ok
      (s1.w.setDst iAD (marshalRemainingFields Adapter.new ta s1.w.src s1.processed)).dst =
      Except.ok vb
    rw [hsrc1, hvbdef, hMdef]
    rfl
  -- facts about vb
  have hiADlt : iAD < tb.fields.length := by
    have h := mem_enumF_bound 0 tb.fields iAD gAD hADmem
    omega
  have hvbAD : vb.getF iAD = M := by
    rw [hvbdef]
    exact getF_setF_self s1.w.dst iAD M (by rw [hs1len]; exact hiADlt)
  have hvblen : vb.vals.length = tb.fields.length := by
    rw [hvbdef]
    rw [setF_length]
    exact hs1len
  -- phase 2: adapt vb back into a fresh ta instance
  obtain ⟨e2, s2src0, s2len0, s2proc0, s2dset0, s2set0, s2un0⟩ :=
    adaptFieldsLoop_empty_reg Adapter.new rfl rfl ta tb (enumFields ta)
      ⟨⟨zeroVal ta, vb⟩, [], []⟩ hpropsA (enumF_fst_nodup 0 ta.fields)
  set s2 := (adaptFieldsLoop Adapter.new ta tb true (enumFields ta)
    ⟨⟨zeroVal ta, vb⟩, [], []⟩).1 with hs2def
  have hloop2 : adaptFieldsLoop Adapter.new ta tb true (enumFields ta)
      ⟨⟨zeroVal ta, vb⟩, [], []⟩ = (s2, none) := by
    rw [hs2def, ← e2]
  have hsrc2 : s2.w.src = vb := s2src0
  have hs2len : s2.w.dst.vals.length = ta.fields.length := by
    rw [s2len0]
    exact zeroVal_length ta
  have s2set2 : ∀ mm gg jj sff, (mm, gg) ∈ enumFields ta → gg.isAdditionalData = false →
      fieldsByName tb gg.name = some (jj, sff) → sff.isAdditionalData = false →
      sff.ignore = false → (vb.getF jj).ty = gg.ty → mm < ta.fields.length →
      s2.w.dst.getF mm = vb.getF jj := by
    intro mm gg jj sff h1 h2 h3 h4 h5 h6 h7
    have h := s2set0 mm gg jj sff h1 h2 h3 h4 h5 h6
    rw [h, if_pos (by rw [zeroVal_length]; exact h7 :
      mm < (zeroVal ta).vals.length)]
  have s2un2 : ∀ mm, (∀ gg, (mm, gg) ∈ enumFields ta → gg.isAdditionalData = false →
      ∀ jj sff, fieldsByName tb gg.name = some (jj, sff) →
        sff.isAdditionalData = true ∨ sff.ignore = true ∨ (vb.getF jj).ty ≠ gg.ty) →
      s2.w.dst.getF mm = (zeroVal ta).getF mm := fun mm h => s2un0 mm h
  have hD2 : ∀ x, s2.dstSet.contains x = true ↔
      (∃ p ∈ enumFields ta, p.2.isAdditionalData = false ∧ p.2.name = x ∧
        ∃ j sf, fieldsByName tb x = some (j, sf) ∧ sf.isAdditionalData = false ∧
          sf.ignore = false) := by
    intro x
    rw [s2dset0 x]
    simp
  have hADexpr2 : ((adFind tb).isSome || (adFind ta).isSome) = true := by
    rw [hADfind]
    rfl
  -- per-field analysis of the direct phase-2 result
  have hmatched : ∀ mm f, (mm, f) ∈ enumFields ta →
      (∃ g ∈ tb.fields, g.name = f.name ∧ g.ty = f.ty ∧ g.isAdditionalData = false) →
      s2.w.dst.getF mm = va.getF mm := by
    intro mm f hfmem hex
    obtain ⟨g, hgmem, hgname, hgty, hgad⟩ := hex
    obtain ⟨jg, hjg⟩ := mem_field_enum 0 tb.fields g hgmem
    have hlookB : fieldsByName tb f.name = some (jg, g) := by
      rw [← hgname]
      exact fieldsByName_unique tb hBnd jg g hjg
    have hjgne : jg ≠ iAD := by
      intro hcontra
      subst hcontra
      have hgg := enumF_functional 0 tb.fields jg g gAD hjg hADmem
      rw [hgg] at hgad
      rw [hADis] at hgad
      cases hgad
    have hjglt : jg < tb.fields.length := by
      have h := mem_enumF_bound 0 tb.fields jg g hjg
      omega
    have hmmlt : mm < ta.fields.length := by
      have h := mem_enumF_bound 0 ta.fields mm f hfmem
      omega
    have hfprops := hA f (mem_enumF_field 0 ta.fields mm f hfmem)
    have hlookA : fieldsByName ta f.name = some (mm, f) :=
      fieldsByName_unique ta hAnd mm f hfmem
    have htyf : (va.getF mm).ty = f.ty := wellTyped_getF ta va hwt mm f hfmem
    have hvb_jg : vb.getF jg = va.getF mm := by
      rw [hvbdef]
      rw [getF_setF_ne s1.w.dst iAD jg M hjgne]
      exact s1set2 jg g mm f hjg hgad (by rw [hgname]; exact hlookA)
        hfprops.2.1 hfprops.2.2.1 (by rw [htyf, hgty]) hjglt
    have hfgty : (vb.getF jg).ty = f.ty := by
      rw [hvb_jg]
      exact htyf
    rw [s2set2 mm f jg g hfmem hfprops.2.1 (by exact hlookB) hgad
      (hB g hgmem).2.1 hfgty hmmlt]
    exact hvb_jg
  have hunmatched : ∀ mm f, (mm, f) ∈ enumFields ta →
      (∀ g ∈ tb.fields, g.name ≠ f.name) →
      s2.w.dst.getF mm = zeroOf f.ty := by
    intro mm f hfmem hno
    have hlookB : fieldsByName tb f.name = none :=
      fieldsByName_eq_none tb f.name hno
    have h := s2un2 mm (fun gg hgg hggad jj sff hlook => by
      have hggf : gg = f := enumF_functional 0 ta.fields mm gg f hgg hfmem
      rw [hggf] at hlook
      rw [hlookB] at hlook
      cases hlook)
    rw [h]
    exact zeroVal_getF ta mm f hfmem
  -- membership of keys in the phase-1 overflow collection
  have hP1unmatched : ∀ f, f ∈ ta.fields → (∀ g ∈ tb.fields, g.name ≠ f.name) →
      s1.processed.contains f.name = false := by
    intro f hf hno
    cases hcc : s1.processed.contains f.name
    · rfl
    · exfalso
      obtain ⟨p, hp, hpad, hpname, _⟩ := (hP1 f.name).1 hcc
      exact hno p.2 (mem_enumF_field 0 tb.fields p.1 p.2 (by cases p; exact hp)) hpname
  -- after unmarshal (both branches), every field of the result equals va
  refine ⟨vb, hphase1, ?_⟩
  by_cases hE : (collectRemaining Adapter.new va s1.processed (enumFields ta)) = []
  case pos =>
    have hMabs : M = Value.vAbsent := by
      rw [hMdef]
      unfold marshalRemainingFields
      rw [hE]
      rfl
    have hum2 : unmarshalStep Adapter.new ta tb true s2 =
        (⟨s2.w, insertS "AdditionalData" s2.processed, s2.dstSet⟩, none) := by
      unfold unmarshalStep
      simp only [hADfind]
      rw [if_neg (by decide), hsrc2, hvbAD, hMabs]
      rfl
    have hw2 : adaptStructW Adapter.new ta tb ⟨zeroVal ta, vb⟩ =
        (marshalStep Adapter.new ta tb
          ⟨s2.w, insertS "AdditionalData" s2.processed, s2.dstSet⟩, none) :=
      adaptStructW_result Adapter.new ta tb ⟨zeroVal ta, vb⟩ hADexpr2 s2 hloop2 _ hum2
    have hmar2 : marshalStep Adapter.new ta tb
        ⟨s2.w, insertS "AdditionalData" s2.processed, s2.dstSet⟩ = s2.w := by
      unfold marshalStep
      rw [hADta]
    have hfinal : s2.w.dst = va := by
      apply sval_ext
      · rw [hs2len, hvalen]
      · intro mm hmm
        rw [hs2len] at hmm
        have hfmem : (mm, ta.fields.getD mm dfltField) ∈ enumFields ta := by
          have h := getD_mem_enumF 0 ta.fields mm hmm
          simpa using h
        set f := ta.fields.getD mm dfltField with hfdef
        rcases hrep f (mem_enumF_field 0 ta.fields mm f hfmem) with hex | hno
        · exact hmatched mm f hfmem hex
        · rw [hunmatched mm f hfmem hno]
          -- the member went unmatched; had it been non-zero it would be in the
          -- (empty) collection, so it is zero
          have hz : (va.getF mm).isZero = true := by
            cases hzz : (va.getF mm).isZero
            · exfalso
              have hmem := collectRemaining_mem_of Adapter.new va s1.processed
                (enumFields ta) mm f hfmem (enum_names_nodup ta hAnd)
                (hA f (mem_enumF_field 0 ta.fields mm f hfmem)).2.1
                (hA f (mem_enumF_field 0 ta.fields mm f hfmem)).2.2.1
                (hP1unmatched f (mem_enumF_field 0 ta.fields mm f hfmem) hno)
                (Or.inr hzz)
              rw [hE] at hmem
              cases hmem
            · rfl
          have hty := wellTyped_getF ta va hwt mm f hfmem
          have hnj := (hA f (mem_enumF_field 0 ta.fields mm f hfmem)).2.2.2.2
          rw [isZero_eq_zeroOf (va.getF mm) f.ty hty hnj hz]
    unfold adaptStruct
    rw [hw2, hmar2]
    show Except.ok s2.w.dst = Except.ok va
    rw [hfinal]
  case neg =>
    set kvs := collectRemaining Adapter.new va s1.processed (enumFields ta) with hkvsdef
    have hMobj : M = Value.vObj kvs := by
      rw [hMdef]
      unfold marshalRemainingFields
      rw [if_neg (by rw [← hkvsdef]; simpa [List.isEmpty_iff] using hE)]
    -- hypotheses of the unmarshal-loop characterization
    have hkeysnd : (kvs.map Prod.fst).Nodup :=
      collectRemaining_keys_nodup Adapter.new va s1.processed (enumFields ta)
    have hentries : ∀ p ∈ kvs, ∃ i3 sf3, (i3, sf3) ∈ enumFields ta ∧ sf3.name = p.1 ∧
        p.2 = va.getF i3 ∧ sf3.isAdditionalData = false ∧ sf3.ignore = false ∧
        s1.processed.contains sf3.name = false := by
      intro p hp
      obtain ⟨i3, sf3, h1, h2, h3, h4, h5, h6⟩ :=
        collectRemaining_mem Adapter.new va s1.processed (enumFields ta) p.1 p.2
          (by cases p; exact hp)
      exact ⟨i3, sf3, h1, h2, h3, h4, h5, h6⟩
    have hkeys : ∀ p ∈ kvs, ∃ jf : Nat × FieldInfo, fieldsByName ta p.1 = some jf ∧
        jf.2.canSet = true ∧ jf.2.ignore = false ∧ (p.2).ty = jf.2.ty ∧
        s2.dstSet.contains p.1 = false := by
      intro p hp
      obtain ⟨i3, sf3, h1, h2, h3, h4, h5, h6⟩ := hentries p hp
      have hlook : fieldsByName ta p.1 = some (i3, sf3) := by
        rw [← h2]
        exact fieldsByName_unique ta hAnd i3 sf3 h1
      refine ⟨(i3, sf3), hlook, (hA sf3 (mem_enumF_field 0 ta.fields i3 sf3 h1)).1,
        h5, ?_, ?_⟩
      · rw [h3]
        exact wellTyped_getF ta va hwt i3 sf3 h1
      · cases hcc : s2.dstSet.contains p.1
        · rfl
        · exfalso
          obtain ⟨q, hq, hqad, hqname, j4, g4, hlook4, hg4ad, hg4ig⟩ :=
            (hD2 p.1).1 hcc
          have hcontra : s1.processed.contains p.1 = true := by
            rw [hP1 p.1]
            exact ⟨(j4, g4), fieldsByName_mem tb p.1 j4 g4 hlook4, hg4ad,
              fieldsByName_name tb p.1 j4 g4 hlook4, by rw [hlook]; rfl⟩
          rw [← h2] at hcontra
          rw [h6] at hcontra
          cases hcontra
    obtain ⟨ue, us, ul, uset, uun⟩ :=
      unmarshalLoop_empty_reg Adapter.new rfl rfl rfl ta kvs s2.w s2.dstSet
        hkeysnd hkeys
    set R := unmarshalLoop Adapter.new ta kvs s2.w s2.dstSet with hRdef
    have hUL : unmarshalLoop Adapter.new ta kvs s2.w s2.dstSet = ((R.1.1, R.1.2), none) := by
      rw [← hRdef, ← ue]
    have hum2 : unmarshalStep Adapter.new ta tb true s2 =
        (⟨R.1.1, insertS "AdditionalData" s2.processed, R.1.2⟩, none) := by
      unfold unmarshalStep
      simp only [hADfind]
      rw [if_neg (by decide), hsrc2, hvbAD, hMobj]
      rw [show unmarshalAdditionalData Adapter.new ta (Value.vObj kvs) s2.w s2.dstSet =
        unmarshalLoop Adapter.new ta kvs s2.w s2.dstSet from rfl, hUL]
      rfl
    have hw2 : adaptStructW Adapter.new ta tb ⟨zeroVal ta, vb⟩ =
        (marshalStep Adapter.new ta tb
          ⟨R.1.1, insertS "AdditionalData" s2.processed, R.1.2⟩, none) :=
      adaptStructW_result Adapter.new ta tb ⟨zeroVal ta, vb⟩ hADexpr2 s2 hloop2 _ hum2
    have hmar2 : marshalStep Adapter.new ta tb
        ⟨R.1.1, insertS "AdditionalData" s2.processed, R.1.2⟩ = R.1.1 := by
      unfold marshalStep
      rw [hADta]
    have hfinal : R.1.1.dst = va := by
      apply sval_ext
      · rw [ul, hs2len, hvalen]
      · intro mm hmm
        rw [ul, hs2len] at hmm
        have hfmem : (mm, ta.fields.getD mm dfltField) ∈ enumFields ta := by
          have h := getD_mem_enumF 0 ta.fields mm hmm
          simpa using h
        set f := ta.fields.getD mm dfltField with hfdef
        have hfin : f ∈ ta.fields := mem_enumF_field 0 ta.fields mm f hfmem
        have hlookA : fieldsByName ta f.name = some (mm, f) :=
          fieldsByName_unique ta hAnd mm f hfmem
        rcases hrep f hfin with hex | hno
        · -- matched member: already set by direct resolution, no overflow key hits it
          have hkeysne : ∀ k v, (k, v) ∈ kvs → ∀ jf, fieldsByName ta k = some jf →
              jf.1 ≠ mm := by
            intro k v hkv jf hjf hcontra
            obtain ⟨i3, sf3, h1, h2, h3, h4, h5, h6⟩ := hentries (k, v) hkv
            have hjfmem := fieldsByName_mem ta k jf.1 jf.2 (by cases jf; exact hjf)
            rw [hcontra] at hjfmem
            have hjf2 : jf.2 = f := enumF_functional 0 ta.fields mm jf.2 f hjfmem hfmem
            have hkf : k = f.name := by
              rw [← fieldsByName_name ta k jf.1 jf.2 (by cases jf; exact hjf), hjf2]
            obtain ⟨g, hgmem, hgname, hgty, hgad⟩ := hex
            have hproc : s1.processed.contains k = true := by
              rw [hP1 k]
              obtain ⟨jg, hjg⟩ := mem_field_enum 0 tb.fields g hgmem
              refine ⟨(jg, g), hjg, hgad, by rw [hgname, hkf], ?_⟩
              rw [hkf, hlookA]
              rfl
            have hproc2 : s1.processed.contains sf3.name = true := by
              rw [h2]
              exact hproc
            rw [h6] at hproc2
            cases hproc2
          rw [uun mm hkeysne]
          exact hmatched mm f hfmem hex
        · by_cases hz : (va.getF mm).isZero = true
          · -- zero unmatched member: excluded from the overflow, left at zero
            have hkeysne : ∀ k v, (k, v) ∈ kvs → ∀ jf, fieldsByName ta k = some jf →
                jf.1 ≠ mm := by
              intro k v hkv jf hjf hcontra
              obtain ⟨i3, sf3, h1, h2, h3, h4, h5, h6⟩ := hentries (k, v) hkv
              have hjfmem := fieldsByName_mem ta k jf.1 jf.2 (by cases jf; exact hjf)
              rw [hcontra] at hjfmem
              have hjf2 : jf.2 = f := enumF_functional 0 ta.fields mm jf.2 f hjfmem hfmem
              have hkf : k = f.name := by
                rw [← fieldsByName_name ta k jf.1 jf.2 (by cases jf; exact hjf), hjf2]
              have hsf3 : (i3, sf3) = (mm, f) := enum_name_inj ta hAnd (i3, sf3) (mm, f)
                h1 hfmem (by rw [h2, hkf])
              have hvz : v.isZero = false := collectRemaining_no_zero Adapter.new rfl
                va s1.processed (enumFields ta) k v hkv
              have h3v : v = va.getF i3 := h3
              rw [h3v] at hvz
              injection hsf3 with hsf3a hsf3b
              rw [hsf3a] at hvz
              rw [hz] at hvz
              cases hvz
            rw [uun mm hkeysne]
            have hty := wellTyped_getF ta va hwt mm f hfmem
            have hnj := (hA f hfin).2.2.2.2
            rw [hunmatched mm f hfmem hno]
            rw [isZero_eq_zeroOf (va.getF mm) f.ty hty hnj hz]
          · -- non-zero unmatched member: restored from the overflow key
            have hz2 : (va.getF mm).isZero = false := by
              cases hzz : (va.getF mm).isZero
              · rfl
              · exact absurd hzz hz
            have hmem := collectRemaining_mem_of Adapter.new va s1.processed
              (enumFields ta) mm f hfmem (enum_names_nodup ta hAnd)
              (hA f hfin).2.1 (hA f hfin).2.2.1
              (hP1unmatched f hfin hno) (Or.inr hz2)
            rw [← hkvsdef] at hmem
            have h := uset f.name (va.getF mm) (mm, f) hmem hlookA
              (by rw [hs2len]; have hb := mem_enumF_bound 0 ta.fields mm f hfmem; omega)
            exact h
    unfold adaptStruct
    rw [hw2, hmar2]
    show Except.ok (R.1.1).dst = Except.ok va
    rw [hfinal]

/-- Witness for C9 at the concrete scenario: a three-member source adapted
into a two-member-plus-overflow destination and back. -/
theorem adapt_round_trip_witness :
    (∀ f ∈ (SType.mk [strField "Name", intField "Age", strField "Email"]).fields,
      plainSrcField f) ∧
    ((SType.mk [strField "Name", intField "Age", strField "Email"]).fields.map
      FieldInfo.name).Nodup ∧
    (∀ g ∈ (SType.mk [strField "Name", intField "Age", adField]).fields,
      plainDstField g) ∧
    ((SType.mk [strField "Name", intField "Age", adField]).fields.map
      FieldInfo.name).Nodup ∧
    (adFind (SType.mk [strField "Name", intField "Age", adField])).isSome = true ∧
    representable (SType.mk [strField "Name", intField "Age", strField "Email"])
      (SType.mk [strField "Name", intField "Age", adField]) ∧
    SVal.wellTyped (SType.mk [strField "Name", intField "Age", strField "Email"])
      ⟨[.vStr "Jane", .vInt 25, .vStr "j@x.com"]⟩ = true ∧
    (∃ vb : SVal,
      adaptStruct Adapter.new (SType.mk [strField "Name", intField "Age", adField])
        (SType.mk [strField "Name", intField "Age", strField "Email"])
        (zeroVal (SType.mk [strField "Name", intField "Age", adField]))
        ⟨[.vStr "Jane", .vInt 25, .vStr "j@x.com"]⟩ = .ok vb ∧
      adaptStruct Adapter.new (SType.mk [strField "Name", intField "Age", strField "Email"])
        (SType.mk [strField "Name", intField "Age", adField])
        (zeroVal (SType.mk [strField "Name", intField "Age", strField "Email"])) vb =
        .ok ⟨[.vStr "Jane", .vInt 25, .vStr "j@x.com"]⟩) := by
  refine ⟨?_, ?_, ?_, ?_, ?_, ?_, ?_, ?_⟩
  · intro f hf
    unfold plainSrcField
    fin_cases hf <;> simp [strField, intField]
  · decide
  · intro g hg
    unfold plainDstField
    fin_cases hg <;> simp [strField, intField, adField]
  · decide
  · decide
  · intro f hf
    fin_cases hf
    · exact Or.inl ⟨strField "Name", by simp [strField], rfl, rfl, rfl⟩
    · exact Or.inl ⟨intField "Age", by simp [intField], rfl, rfl, rfl⟩
    · exact Or.inr (by decide)
  · decide
  · exact adapt_round_trip _ _ _
      (by intro f hf
          unfold plainSrcField
          fin_cases hf <;> simp [strField, intField])
      (by decide)
      (by intro g hg
          unfold plainDstField
          fin_cases hg <;> simp [strField, intField, adField])
      (by decide) (by decide)
      (by intro f hf
          fin_cases hf
          · exact Or.inl ⟨strField "Name", by simp [strField], rfl, rfl, rfl⟩
          · exact Or.inl ⟨intField "Age", by simp [intField], rfl, rfl, rfl⟩
          · exact Or.inr (by decide))
      (by decide)

/-- C10: an adaptation call, whether it succeeds or fails, leaves the
source struct value unchanged — every write of the pipeline targets the
destination component of the world or the scratch sets. -/
theorem adapt_leaves_source_unchanged (a : Adapter) (dt st : SType) (w0 : World) :
    ((adaptStructW a dt st w0).1).src = w0.src :=
  adaptStructW_src a dt st w0

end Adapters
